import Mathlib

/-!
A verification development for the padfoot PDF page-extraction engine.

The embedding models, from the Rust sources:

* `src/pdf/mod.rs` — the tree builder (`PDFTree::new` / `PDFTree::unfold` /
  `PDFDictionary::new`) and the tree materializer (`PDFTree::fold` /
  `PDFTree::link_reference` / `PDFDictionary::fold`).  This is the module the
  crate actually compiles (`lib.rs` declares `mod pdf;`, and `mod.rs` declares
  no submodule, so `src/pdf/tree.rs` is an unreferenced draft).
* `src/commands.rs` — the `burst` command's per-page pipeline and output
  naming.
* `src/main.rs` — the page-range token parser built on the `combine`
  parser-combinator crate (`number`, `inclusive_range`).

External crates are modelled from their documented behaviour: `lopdf`'s
`Document` object store (a map from `(number, generation)` ids to objects,
with `max_id`-based fresh-id allocation), and `linked_hash_map`'s
insertion-order-preserving maps.  `f64` payloads of `Real` objects and stream
payloads are carried opaquely (neither `unfold` nor `fold` inspects them).

The recursive walks are embedded with an explicit fuel parameter that every
recursive call decrements; theorems below prove that fuel above an explicit
bound never runs out and that the result does not depend on the fuel chosen,
which is precisely the termination statement for the Rust recursion.
-/

namespace Padfoot

/-- `lopdf::ObjectId`: a `(number, generation)` pair. -/
abbrev ObjectId := Nat × Nat

/-- `lopdf::StringFormat`. -/
inductive StringFormat where
  | literal
  | hexadecimal
deriving DecidableEq

/-- `lopdf::Object`, the closed variant of PDF values.  `Real` carries its
`f64` payload opaquely as a bit pattern, and `Stream` carries its payload
(stream dictionary plus raw bytes) opaquely: the padfoot walks never inspect
either.  Dictionary keys are strings, as in the `lopdf` version used. -/
inductive Object where
  | null
  | boolean (b : Bool)
  | integer (i : Int)
  | real (bits : Nat)
  | name (s : String)
  | string (s : String) (f : StringFormat)
  | array (v : List Object)
  | dictionary (d : List (String × Object))
  | stream (s : Nat)
  | reference (oid : ObjectId)

/-- `PDFTree` from `src/pdf/mod.rs`: mirrors `Object`, except that a
`Reference` either stays a (back-)`reference` or becomes an owned `subTree`. -/
inductive PDFTree where
  | null
  | boolean (b : Bool)
  | integer (i : Int)
  | real (bits : Nat)
  | name (s : String)
  | string (s : String) (f : StringFormat)
  | array (v : List PDFTree)
  | dictionary (d : List (String × PDFTree))
  | stream (s : Nat)
  | reference (oid : ObjectId)
  | subTree (t : PDFTree)

/-- The source document's object store, as consulted by the tree builder:
a finite association of `ObjectId`s to objects (`lopdf`'s `BTreeMap`,
of which `unfold` only uses `get_object`, i.e. lookup). -/
abbrev SrcDoc := List (ObjectId × Object)

/-- `lopdf::Document::get_object`: look the id up in the object store. -/
def getObject (doc : SrcDoc) (oid : ObjectId) : Option Object :=
  match doc with
  | [] => none
  | (k, o) :: rest => if k = oid then some o else getObject rest oid

/-- The `SeenSet` (`BTreeSet<ObjectId>` in the source).  The walk only ever
inserts ids that are not yet present, so insertion is modelled as `cons`. -/
abbrev SeenSet := List ObjectId

/-- The triple of mutually recursive walkers of one fuel level: over a single
object (`PDFTree::unfold`), over an array's elements, and over a dictionary's
entries (`PDFDictionary::new`). -/
structure UnfoldFns where
  obj : SeenSet → Object → Option (PDFTree × SeenSet)
  list : SeenSet → List Object → Option (List PDFTree × SeenSet)
  dict : SeenSet → List (String × Object) → Option (List (String × PDFTree) × SeenSet)

/-- One step of the tree builder, with `prev` handling all recursive calls.
This is a direct transcription of `PDFTree::unfold` and `PDFDictionary::new`
from `src/pdf/mod.rs`: scalars copy; arrays walk their elements in order,
threading the seen set; dictionaries copy entries in insertion order but skip
the `"Parent"` entry entirely (its value is not walked); a reference already
seen stays a `reference`; an unseen reference is first inserted into the seen
set, then looked up — a hit recurses and wraps as `subTree`, a miss degrades
to `null`.  A dictionary built by inserting distinct keys into a
`LinkedHashMap` in iteration order is exactly the in-order list built here
(the source dictionary, itself a `LinkedHashMap`, cannot hold duplicate
keys). -/
def mkUnfoldFns (doc : SrcDoc) (prev : UnfoldFns) : UnfoldFns where
  obj seen o :=
    match o with
    | .null => some (.null, seen)
    | .boolean b => some (.boolean b, seen)
    | .integer i => some (.integer i, seen)
    | .real bits => some (.real bits, seen)
    | .name s => some (.name s, seen)
    | .string s f => some (.string s f, seen)
    | .array v => (prev.list seen v).map (fun p => (.array p.1, p.2))
    | .dictionary d => (prev.dict seen d).map (fun p => (.dictionary p.1, p.2))
    | .stream s => some (.stream s, seen)
    | .reference oid =>
        if oid ∈ seen then some (.reference oid, seen)
        else
          match getObject doc oid with
          | none => some (.null, oid :: seen)
          | some x => (prev.obj (oid :: seen) x).map (fun p => (.subTree p.1, p.2))
  list seen l :=
    match l with
    | [] => some ([], seen)
    | x :: xs =>
        match prev.obj seen x with
        | none => none
        | some (t, s1) =>
            match prev.list s1 xs with
            | none => none
            | some (ts, s2) => some (t :: ts, s2)
  dict seen e :=
    match e with
    | [] => some ([], seen)
    | (s, o) :: rest =>
        if s = "Parent" then prev.dict seen rest
        else
          match prev.obj seen o with
          | none => none
          | some (t, s1) =>
              match prev.dict s1 rest with
              | none => none
              | some (res, s2) => some ((s, t) :: res, s2)

/-- The fuel-indexed tower of walkers: fuel `0` is exhausted (`none`
everywhere), fuel `f + 1` runs one step with recursive calls at fuel `f`. -/
def unfoldF (doc : SrcDoc) : Nat → UnfoldFns
  | 0 => ⟨fun _ _ => none, fun _ _ => none, fun _ _ => none⟩
  | f + 1 => mkUnfoldFns doc (unfoldF doc f)

/-- `PDFTree::unfold` at a given fuel. -/
def unfold (doc : SrcDoc) (f : Nat) (seen : SeenSet) (o : Object) :
    Option (PDFTree × SeenSet) :=
  (unfoldF doc f).obj seen o

/-- The array-elements walk at a given fuel. -/
def unfoldList (doc : SrcDoc) (f : Nat) (seen : SeenSet) (l : List Object) :
    Option (List PDFTree × SeenSet) :=
  (unfoldF doc f).list seen l

/-- `PDFDictionary::new` at a given fuel. -/
def unfoldDict (doc : SrcDoc) (f : Nat) (seen : SeenSet)
    (e : List (String × Object)) :
    Option (List (String × PDFTree) × SeenSet) :=
  (unfoldF doc f).dict seen e

mutual

/-- Structural size of an object (used only to compute sufficient fuel). -/
def osize : Object → Nat
  | .array v => 1 + olsize v
  | .dictionary d => 1 + odsize d
  | _ => 1

/-- Structural size of an array's element list. -/
def olsize : List Object → Nat
  | [] => 1
  | x :: xs => 1 + osize x + olsize xs

/-- Structural size of a dictionary's entry list. -/
def odsize : List (String × Object) → Nat
  | [] => 1
  | (_, o) :: rest => 1 + osize o + odsize rest

end

/-- The distinct ids of the source object store. -/
def docIds (doc : SrcDoc) : List ObjectId :=
  (doc.map Prod.fst).dedup

/-- How many ids of the store are not yet in the seen set.  Each recursion
through a reference strictly decreases this quantity. -/
def unseenCount (doc : SrcDoc) (seen : SeenSet) : Nat :=
  ((docIds doc).filter (fun i => decide (i ∉ seen))).length

/-- An upper bound for the size of any object stored in the document. -/
def maxObjSize (doc : SrcDoc) : Nat :=
  (doc.map (fun p => osize p.2)).foldr max 0

/-- Fuel that is always sufficient for `unfold doc · seen o`
(proved in the termination theorem below). -/
def fuelBound (doc : SrcDoc) (seen : SeenSet) (o : Object) : Nat :=
  osize o + unseenCount doc seen * (1 + maxObjSize doc) + 1

/-- `PDFTree::new` from `src/pdf/mod.rs`: look up the root id (`none` models
the `Err` of the source), seed the seen set with the root id, and unfold.
The fuel is the proved-sufficient bound, so the `.map` never hits a `none`
from fuel exhaustion. -/
def pdftreeNew (oid : ObjectId) (doc : SrcDoc) : Option PDFTree :=
  match getObject doc oid with
  | none => none
  | some o => (unfold doc (fuelBound doc [oid] o) [oid] o).map Prod.fst

/-- Ghost companions of the walkers: the list of ids the walk recursed into
(inserted into the seen set right before a successful lookup), per fuel
level.  Used to state that each source object is expanded at most once. -/
structure TraceFns where
  obj : SeenSet → Object → List ObjectId
  list : SeenSet → List Object → List ObjectId
  dict : SeenSet → List (String × Object) → List ObjectId

/-- One fuel level of the expansion trace; intermediate seen sets are
recomputed with `unfoldF` at the same level, so the trace follows exactly the
walk of `mkUnfoldFns`. -/
def mkTraceFns (doc : SrcDoc) (prevU : UnfoldFns) (prev : TraceFns) : TraceFns where
  obj seen o :=
    match o with
    | .array v => prev.list seen v
    | .dictionary d => prev.dict seen d
    | .reference oid =>
        if oid ∈ seen then []
        else
          match getObject doc oid with
          | none => []
          | some x => oid :: prev.obj (oid :: seen) x
    | _ => []
  list seen l :=
    match l with
    | [] => []
    | x :: xs =>
        prev.obj seen x ++
          match prevU.obj seen x with
          | none => []
          | some (_, s1) => prev.list s1 xs
  dict seen e :=
    match e with
    | [] => []
    | (s, o) :: rest =>
        if s = "Parent" then prev.dict seen rest
        else
          prev.obj seen o ++
            match prevU.obj seen o with
            | none => []
            | some (_, s1) => prev.dict s1 rest

/-- The fuel-indexed tower of expansion traces. -/
def traceF (doc : SrcDoc) : Nat → TraceFns
  | 0 => ⟨fun _ _ => [], fun _ _ => [], fun _ _ => []⟩
  | f + 1 => mkTraceFns doc (unfoldF doc f) (traceF doc f)

/-- The ids expanded by `unfold doc f seen o`, in expansion order. -/
def utrace (doc : SrcDoc) (f : Nat) (seen : SeenSet) (o : Object) : List ObjectId :=
  (traceF doc f).obj seen o

/-- The ids expanded while walking an array's elements. -/
def utraceList (doc : SrcDoc) (f : Nat) (seen : SeenSet) (l : List Object) :
    List ObjectId :=
  (traceF doc f).list seen l

/-- The ids expanded while walking a dictionary's entries. -/
def utraceDict (doc : SrcDoc) (f : Nat) (seen : SeenSet)
    (e : List (String × Object)) : List ObjectId :=
  (traceF doc f).dict seen e

/-! ## The destination document (`lopdf::Document`) -/

/-- Insert-or-replace into an association list, keyed on the first component.
Models insertion into `lopdf`'s `BTreeMap<ObjectId, Object>` object store,
of which the walks only observe lookups, never iteration order. -/
def objInsert (id : ObjectId) (o : Object) :
    List (ObjectId × Object) → List (ObjectId × Object)
  | [] => [(id, o)]
  | (k, v) :: rest =>
      if k = id then (k, o) :: rest else (k, v) :: objInsert id o rest

/-- Lookup in the destination object store (`Document::get_object`). -/
def lookupObj (l : List (ObjectId × Object)) (id : ObjectId) : Option Object :=
  match l with
  | [] => none
  | (k, o) :: rest => if k = id then some o else lookupObj rest id

/-- Lookup in a dictionary (`lopdf::Dictionary::get`). -/
def lhmGet (l : List (String × Object)) (k : String) : Option Object :=
  match l with
  | [] => none
  | (k', o) :: rest => if k' = k then some o else lhmGet rest k

/-- `lopdf::Dictionary::set`: replace the binding of an existing key (keeping
its position) or append a new entry.  Every use proved about below is on a
dictionary in which the key is absent, so only the append branch matters. -/
def dictSet (k : String) (v : Object) :
    List (String × Object) → List (String × Object)
  | [] => [(k, v)]
  | (k', v') :: rest =>
      if k' = k then (k', v) :: rest else (k', v') :: dictSet k v rest

/-- The destination `lopdf::Document`: the object store, the running maximal
allocated id number `max_id`, and the trailer dictionary. -/
structure Document where
  maxId : Nat
  objects : List (ObjectId × Object)
  trailer : List (String × Object)

/-- `lopdf::Document::new` (fresh store, `max_id` 0, empty trailer). -/
def Document.new : Document := ⟨0, [], []⟩

/-- `lopdf::Document::new_object_id`: bump `max_id` and hand out
`(max_id, 0)`. -/
def newObjectId (d : Document) : ObjectId × Document :=
  ((d.maxId + 1, 0), { d with maxId := d.maxId + 1 })

/-- `lopdf::Document::add_object`: allocate `(max_id + 1, 0)`, store the
object under it, return the id. -/
def addObject (o : Object) (d : Document) : ObjectId × Document :=
  ((d.maxId + 1, 0),
    { d with
      maxId := d.maxId + 1
      objects := objInsert (d.maxId + 1, 0) o d.objects })

/-- The ids present in the destination's object store. -/
def docKeys (d : Document) : List ObjectId :=
  d.objects.map Prod.fst

/-- The store invariant maintained by `lopdf`: every stored id number is at
most `max_id` (all insertions go through `new_object_id`/`add_object`). -/
def DocInv (d : Document) : Prop :=
  ∀ p ∈ d.objects, p.1.1 ≤ d.maxId

instance (d : Document) : Decidable (DocInv d) := by
  unfold DocInv
  infer_instance

mutual

/-- `PDFTree::fold` from `src/pdf/mod.rs` (the materializer): scalars,
streams and back-references re-emit the same object; arrays fold their
elements in order, threading the destination; dictionaries fold via
`PDFDictionary::fold`; a `subTree` is materialized by `link_reference`
(fold the subtree, then `add_object` the result — inlined here) and emits a
`Reference` to the fresh id. -/
def fold : PDFTree → Document → Object × Document
  | .null, d => (.null, d)
  | .boolean b, d => (.boolean b, d)
  | .integer i, d => (.integer i, d)
  | .real bits, d => (.real bits, d)
  | .name s, d => (.name s, d)
  | .string s f, d => (.string s f, d)
  | .array v, d =>
      let p := foldList v d
      (.array p.1, p.2)
  | .dictionary e, d =>
      let p := foldDict e d
      (.dictionary p.1, p.2)
  | .stream s, d => (.stream s, d)
  | .reference oid, d => (.reference oid, d)
  | .subTree t, d =>
      let p := fold t d
      let q := addObject p.1 p.2
      (.reference q.1, q.2)

/-- Folding an array's elements in order. -/
def foldList : List PDFTree → Document → List Object × Document
  | [], d => ([], d)
  | t :: ts, d =>
      let p := fold t d
      let q := foldList ts p.2
      (p.1 :: q.1, q.2)

/-- `PDFDictionary::fold`: fold each value in order and rebuild the ordered
dictionary (`Dictionary::set` of distinct keys appends in order). -/
def foldDict : List (String × PDFTree) → Document → List (String × Object) × Document
  | [], d => ([], d)
  | (s, t) :: rest, d =>
      let p := fold t d
      let q := foldDict rest p.2
      ((s, p.1) :: q.1, q.2)

end

/-- `PDFTree::link_reference`: fold the tree, then insert the result under a
freshly allocated id (`add_object`), returning the id. -/
def link_reference (t : PDFTree) (d : Document) : ObjectId × Document :=
  let p := fold t d
  addObject p.1 p.2

mutual

/-- Ghost companion of `fold`: the ids allocated by `add_object` during the
fold, in allocation order (one per materialized `subTree`). -/
def foldLog : PDFTree → Document → List ObjectId
  | .array v, d => foldListLog v d
  | .dictionary e, d => foldDictLog e d
  | .subTree t, d => foldLog t d ++ [((fold t d).2.maxId + 1, 0)]
  | _, _ => []

/-- Allocation log of `foldList`. -/
def foldListLog : List PDFTree → Document → List ObjectId
  | [], _ => []
  | t :: ts, d => foldLog t d ++ foldListLog ts (fold t d).2

/-- Allocation log of `foldDict`. -/
def foldDictLog : List (String × PDFTree) → Document → List ObjectId
  | [], _ => []
  | (_, t) :: rest, d => foldLog t d ++ foldDictLog rest (fold t d).2

end

/-! ## The `burst` command (`src/commands.rs`) -/

/-- `lopdf::Document::get_dictionary` on the source store: the object stored
at the id, provided it is a dictionary. -/
def getDictionary (doc : SrcDoc) (oid : ObjectId) : Option (List (String × Object)) :=
  match getObject doc oid with
  | some (.dictionary d) => some d
  | _ => none

/-- `f64::ceil(f64::log10(n)) as usize` for the page counts the program
computes it on (`n ≥ 1`): the least `k` with `n ≤ 10 ^ k`, computed as the
digit count of `n - 1`.  (`digitCountAux` counts base-10 digits with
structural fuel; fuel `m` is ample for `m`.) -/
def digitCountAux : Nat → Nat → Nat
  | 0, _ => 0
  | f + 1, m => if m = 0 then 0 else 1 + digitCountAux f (m / 10)

/-- Ceiling of the base-10 logarithm, as `burst` computes its suffix width. -/
def ceilLog10 (n : Nat) : Nat :=
  if n ≤ 1 then 0 else digitCountAux n (n - 1)

/-- `format!("{:0width$}", n)`: decimal digits of `n`, left-padded with `'0'`
to `width` (never truncated). -/
def zeroPad (width n : Nat) : String :=
  let s := Nat.repr n
  String.mk (List.replicate (width - s.length) '0') ++ s

/-- The output file name `burst` writes for page number `no`:
`<stem>_<zero-padded no>.pdf` (from `format!("{}_{:0width$}.pdf", ...)`;
the original file's stem is taken as a given string). -/
def burstFileName (stem : String) (width no : Nat) : String :=
  stem ++ "_" ++ zeroPad width no ++ ".pdf"

/-- `new.get_object_mut(page_id).and_then(Object::as_dict_mut).map(|d|
d.set("Parent", pages_id))`: if the object stored at `pageId` is a
dictionary, re-bind its `"Parent"` key to a reference to `pagesId`;
otherwise leave the document unchanged. -/
def setPageParent (pageId pagesId : ObjectId) (d : Document) : Document :=
  match lookupObj d.objects pageId with
  | some (.dictionary pd) =>
      { d with
        objects :=
          objInsert pageId
            (.dictionary (dictSet "Parent" (.reference pagesId) pd)) d.objects }
  | _ => d

/-- The artifacts of one successful page extraction inside `burst`'s
per-page closure. -/
structure BurstPageOut where
  newDoc : Document
  pageId : ObjectId
  pagesId : ObjectId
  fileName : String

/-- One iteration of `burst`'s per-page closure (`src/commands.rs`): create a
fresh destination, reserve the Pages-node id, require the source page
dictionary and its `MediaBox`, build the page's `PDFTree` and materialize it,
insert the Pages node `(Type: Pages, Kids: [page_id], Count: 1, MediaBox)`,
re-target the materialized page's `Parent` at the new Pages node, add the
catalog and point the trailer's `Root` at it, and emit the output file name.
`none` models the closure's `Err` exits.  (`Document::compress` only
re-encodes stream payloads, which are opaque here, and is omitted.) -/
def burstPage (doc : SrcDoc) (stem : String) (width no : Nat) (oid : ObjectId) :
    Option BurstPageOut :=
  let new0 := Document.new
  let p0 := newObjectId new0
  let pagesId := p0.1
  let new1 := p0.2
  (getDictionary doc oid).bind fun oldPageD =>
  (lhmGet oldPageD "MediaBox").bind fun mediaBox =>
  (pdftreeNew oid doc).map fun newPage =>
    let p1 := link_reference newPage new1
    let pageId := p1.1
    let new2 := p1.2
    let pagesDict : List (String × Object) :=
      [("Type", .name "Pages"),
       ("Kids", .array [.reference pageId]),
       ("Count", .integer 1),
       ("MediaBox", mediaBox)]
    let new3 :=
      { new2 with objects := objInsert pagesId (.dictionary pagesDict) new2.objects }
    let new4 := setPageParent pageId pagesId new3
    let p2 :=
      addObject
        (.dictionary [("Type", .name "Catalog"), ("Pages", .reference pagesId)])
        new4
    let new5 := { p2.2 with trailer := dictSet "Root" (.reference p2.1) p2.2.trailer }
    ⟨new5, pageId, pagesId, burstFileName stem width no⟩

/-- `page_range` (`src/pdf/mod.rs`): the minimum and maximum keys of the page
index, or an error (`none`) when there are no pages. -/
def pageRangeOf (pages : List (Nat × ObjectId)) : Option (Nat × Nat) :=
  match pages.map Prod.fst with
  | [] => none
  | k :: ks => some (ks.foldl min k, ks.foldl max k)

/-- The file names `burst` writes for one source, given the suffix width:
each page of the index is attempted independently, the per-page `Result` is
discarded (`for_each(drop)`), and only successful pages produce files. -/
def burstFilesW (doc : SrcDoc) (stem : String) (width : Nat)
    (pages : List (Nat × ObjectId)) : List String :=
  pages.filterMap (fun p => (burstPage doc stem width p.1 p.2).map (fun r => r.fileName))

/-- The file names `burst` writes for one source document: the suffix width
is `ceil(log10(max_pages))` where `max_pages = e + 1 - s` for the page-number
range `[s, e]`; no pages at all is a (dropped) error producing no files. -/
def burstFiles (doc : SrcDoc) (stem : String) (pages : List (Nat × ObjectId)) :
    List String :=
  match pageRangeOf pages with
  | none => []
  | some (s, e) => burstFilesW doc stem (ceilLog10 (e + 1 - s)) pages

/-- The value `burst` returns for its caller: every per-page and per-document
`Result` is discarded with `for_each(drop)`, and the function ends in
`Ok(())` unconditionally. -/
def burstReturn : Except String Unit := Except.ok ()

/-- Modelled from `lopdf`: `Document::get_pages` numbers the pages of the
document consecutively starting from 1 (a `BTreeMap<u32, ObjectId>̀` keyed by
1-based page number). -/
def lopdfPageNumbers (pageIds : List ObjectId) : List (Nat × ObjectId) :=
  (List.range' 1 pageIds.length).zip pageIds

/-! ## Source-document surgery (used to state `Parent`-independence) -/

/-- Replace every value bound to the key `"Parent"` in a dictionary's entry
list, keeping all positions and all other entries. -/
def setParentValue (v : Object) : List (String × Object) → List (String × Object)
  | [] => []
  | (k, o) :: rest =>
      (k, if k = "Parent" then v else o) :: setParentValue v rest

/-- Replace the object stored at `oid` in the source store (first binding),
keeping every other binding. -/
def srcSet (doc : SrcDoc) (oid : ObjectId) (o : Object) : SrcDoc :=
  match doc with
  | [] => []
  | (k, x) :: rest =>
      if k = oid then (k, o) :: rest else (k, x) :: srcSet rest oid o

/-! ## The page-range token parser (`src/main.rs`, via `combine`) -/

/-- Result of a `combine` parser: a value with the remaining input, or a
failure; both record whether input was consumed, which drives `choice!` and
`optional`. -/
inductive PResult (α : Type) where
  | ok (a : α) (rest : List Char) (consumed : Bool)
  | err (consumed : Bool)
deriving DecidableEq

/-- `usize::MAX` on the 64-bit targets the program builds for. -/
def USIZE_MAX : Nat := 2 ^ 64 - 1

/-- The numeric value of a string of decimal digits. -/
def digitsVal (ds : List Char) : Nat :=
  ds.foldl (fun a c => a * 10 + (c.toNat - '0'.toNat)) 0

/-- `number()`: `from_str(many1(digit()))`.  `many1(digit())` greedily takes
the leading digits and fails without consuming if there are none;
`usize::from_str` then fails (having consumed) if the value overflows. -/
def pNumber (input : List Char) : PResult Nat :=
  let ds := input.takeWhile Char.isDigit
  if ds.isEmpty then .err false
  else if digitsVal ds ≤ USIZE_MAX then
    .ok (digitsVal ds) (input.dropWhile Char.isDigit) true
  else .err true

/-- `char(c)`: consume exactly `c`, failing without consumption otherwise. -/
def pChar (c : Char) (input : List Char) : PResult Char :=
  match input with
  | [] => .err false
  | x :: rest => if x = c then .ok c rest true else .err false

/-- `char('-').with(number())`: sequence, keeping the number; consumption is
the disjunction of the two parts. -/
def pDashNumber (input : List Char) : PResult Nat :=
  match pChar '-' input with
  | .ok _ rest _ =>
      (match pNumber rest with
      | .ok n r _ => .ok n r true
      | .err _ => .err true)
  | .err c => .err c

/-- `optional(char('-').with(number()))`: an empty failure yields `none`
without consuming; a consumed failure propagates. -/
def pOptDashNumber (input : List Char) : PResult (Option Nat) :=
  match pDashNumber input with
  | .ok n r c => .ok (some n) r c
  | .err false => .ok none input false
  | .err true => .err true

/-- First branch of `inclusive_range`:
`number().and(optional(char('-').with(number())))`, mapped to the pair
(`(f, Some(t)) ↦ (f, t)`, `(f, None) ↦ (f, f)`). -/
def pRangeBranch1 (input : List Char) : PResult (Nat × Nat) :=
  match pNumber input with
  | .err c => .err c
  | .ok f r c =>
      match pOptDashNumber r with
      | .ok (some t) r2 c2 => .ok (f, t) r2 (c || c2)
      | .ok none r2 c2 => .ok (f, f) r2 (c || c2)
      | .err c2 => .err (c || c2)

/-- Second branch of `inclusive_range`: `char('-').with(number())` mapped to
`(1, x)`. -/
def pRangeBranch2 (input : List Char) : PResult (Nat × Nat) :=
  match pDashNumber input with
  | .ok n r c => .ok (1, n) r c
  | .err c => .err c

/-- `inclusive_range()` (`src/main.rs`): `choice!` of the two branches — the
second is attempted only if the first fails without consuming input. -/
def inclusiveRange (input : List Char) : PResult (Nat × Nat) :=
  match pRangeBranch1 input with
  | .ok a r c => .ok a r c
  | .err true => .err true
  | .err false => pRangeBranch2 input

/-! ## Concrete fixtures used by witnesses and counterexamples -/

/-- The spec's synthetic two-object cycle: A references B and B references A
through a non-`"Parent"` key. -/
def cycleDoc : SrcDoc :=
  [((1, 0), .dictionary [("Next", .reference (2, 0))]),
   ((2, 0), .dictionary [("Next", .reference (1, 0))])]

/-- A one-page source document whose page object is a well-formed page
dictionary (with a `MediaBox` and a stale `Parent` reference). -/
def onePageDoc : SrcDoc :=
  [((3, 0),
    .dictionary
      [("Type", .name "Page"),
       ("Parent", .reference (7, 0)),
       ("MediaBox", .array [.integer 0, .integer 0, .integer 612, .integer 792])])]

/-- A two-page source document whose first page has no `MediaBox` (so its
extraction fails) while the second page is fine. -/
def twoPageDoc : SrcDoc :=
  [((1, 0), .dictionary [("Type", .name "Page")]),
   ((2, 0),
    .dictionary
      [("Type", .name "Page"),
       ("MediaBox", .array [.integer 0, .integer 0, .integer 612, .integer 792])])]

/-- A well-formed page object used to populate the twelve-page fixture. -/
def pageObj : Object :=
  .dictionary
    [("Type", .name "Page"),
     ("MediaBox", .array [.integer 0, .integer 0, .integer 612, .integer 792])]

/-- A twelve-page source document (ids `(1,0)` … `(12,0)`, all pages
well-formed). -/
def twelvePageDoc : SrcDoc :=
  (List.range' 1 12).map (fun i => ((i, 0), pageObj))

/-- The page index `lopdf` computes for `twelvePageDoc`. -/
def twelvePages : List (Nat × ObjectId) :=
  lopdfPageNumbers ((List.range' 1 12).map (fun i => (i, 0)))

mutual

/-- Structural size of a tree (used only for the combined induction). -/
def psize : PDFTree → Nat
  | .array v => 1 + plsize v
  | .dictionary e => 1 + pdsize e
  | .subTree t => 1 + psize t
  | _ => 1

/-- Structural size of a tree list. -/
def plsize : List PDFTree → Nat
  | [] => 1
  | t :: ts => 1 + psize t + plsize ts

/-- Structural size of a tree dictionary's entries. -/
def pdsize : List (String × PDFTree) → Nat
  | [] => 1
  | (_, t) :: rest => 1 + psize t + pdsize rest

end

/-- A tree with two distinct embedded subtrees, exercising fresh-id
allocation. -/
def exampleTree : PDFTree := .array [.subTree .null, .subTree (.integer 7)]

/-- The behaviours of `fold` proved by simultaneous induction: the maximal id
never decreases, the trailer is untouched, bindings of previously allocated
ids are preserved, the store invariant is maintained, and the allocation log
is a strictly increasing run of ids in `(d.maxId, final maxId]`. -/
def FoldInvariant (t : PDFTree) : Prop :=
  ∀ d : Document,
    d.maxId ≤ (fold t d).2.maxId ∧
      (fold t d).2.trailer = d.trailer ∧
      (∀ id : ObjectId, id.1 ≤ d.maxId →
        lookupObj (fold t d).2.objects id = lookupObj d.objects id) ∧
      (DocInv d → DocInv (fold t d).2) ∧
      (∀ a ∈ foldLog t d, d.maxId < a.1 ∧ a.1 ≤ (fold t d).2.maxId) ∧
      List.Chain' (fun a b : ObjectId => a.1 < b.1) (foldLog t d)

/-- `FoldInvariant`, for `foldList`. -/
def FoldListInvariant (l : List PDFTree) : Prop :=
  ∀ d : Document,
    d.maxId ≤ (foldList l d).2.maxId ∧
      (foldList l d).2.trailer = d.trailer ∧
      (∀ id : ObjectId, id.1 ≤ d.maxId →
        lookupObj (foldList l d).2.objects id = lookupObj d.objects id) ∧
      (DocInv d → DocInv (foldList l d).2) ∧
      (∀ a ∈ foldListLog l d, d.maxId < a.1 ∧ a.1 ≤ (foldList l d).2.maxId) ∧
      List.Chain' (fun a b : ObjectId => a.1 < b.1) (foldListLog l d)

/-- `FoldInvariant`, for `foldDict`. -/
def FoldDictInvariant (e : List (String × PDFTree)) : Prop :=
  ∀ d : Document,
    d.maxId ≤ (foldDict e d).2.maxId ∧
      (foldDict e d).2.trailer = d.trailer ∧
      (∀ id : ObjectId, id.1 ≤ d.maxId →
        lookupObj (foldDict e d).2.objects id = lookupObj d.objects id) ∧
      (DocInv d → DocInv (foldDict e d).2) ∧
      (∀ a ∈ foldDictLog e d, d.maxId < a.1 ∧ a.1 ≤ (foldDict e d).2.maxId) ∧
      List.Chain' (fun a b : ObjectId => a.1 < b.1) (foldDictLog e d)

/-! # Theorems

First, definitional equations for the fuel-indexed walkers. -/

@[simp]
theorem unfold_fuel_zero (doc : SrcDoc) (seen : SeenSet) (o : Object) :
    unfold doc 0 seen o = none := rfl

@[simp]
theorem unfoldList_fuel_zero (doc : SrcDoc) (seen : SeenSet) (l : List Object) :
    unfoldList doc 0 seen l = none := rfl

@[simp]
theorem unfoldDict_fuel_zero (doc : SrcDoc) (seen : SeenSet)
    (e : List (String × Object)) : unfoldDict doc 0 seen e = none := rfl

@[simp]
theorem unfold_null (doc : SrcDoc) (f : Nat) (seen : SeenSet) :
    unfold doc (f + 1) seen .null = some (.null, seen) := rfl

@[simp]
theorem unfold_boolean (doc : SrcDoc) (f : Nat) (seen : SeenSet) (b : Bool) :
    unfold doc (f + 1) seen (.boolean b) = some (.boolean b, seen) := rfl

@[simp]
theorem unfold_integer (doc : SrcDoc) (f : Nat) (seen : SeenSet) (i : Int) :
    unfold doc (f + 1) seen (.integer i) = some (.integer i, seen) := rfl

@[simp]
theorem unfold_real (doc : SrcDoc) (f : Nat) (seen : SeenSet) (bits : Nat) :
    unfold doc (f + 1) seen (.real bits) = some (.real bits, seen) := rfl

@[simp]
theorem unfold_name (doc : SrcDoc) (f : Nat) (seen : SeenSet) (s : String) :
    unfold doc (f + 1) seen (.name s) = some (.name s, seen) := rfl

@[simp]
theorem unfold_string (doc : SrcDoc) (f : Nat) (seen : SeenSet) (s : String)
    (fmt : StringFormat) :
    unfold doc (f + 1) seen (.string s fmt) = some (.string s fmt, seen) := rfl

@[simp]
theorem unfold_stream (doc : SrcDoc) (f : Nat) (seen : SeenSet) (s : Nat) :
    unfold doc (f + 1) seen (.stream s) = some (.stream s, seen) := rfl

@[simp]
theorem unfold_array (doc : SrcDoc) (f : Nat) (seen : SeenSet) (v : List Object) :
    unfold doc (f + 1) seen (.array v) =
      (unfoldList doc f seen v).map (fun p => (.array p.1, p.2)) := rfl

@[simp]
theorem unfold_dictionary (doc : SrcDoc) (f : Nat) (seen : SeenSet)
    (e : List (String × Object)) :
    unfold doc (f + 1) seen (.dictionary e) =
      (unfoldDict doc f seen e).map (fun p => (.dictionary p.1, p.2)) := rfl

theorem unfold_reference (doc : SrcDoc) (f : Nat) (seen : SeenSet) (oid : ObjectId) :
    unfold doc (f + 1) seen (.reference oid) =
      if oid ∈ seen then some (.reference oid, seen)
      else
        match getObject doc oid with
        | none => some (.null, oid :: seen)
        | some x =>
            (unfold doc f (oid :: seen) x).map (fun p => (.subTree p.1, p.2)) := rfl

@[simp]
theorem unfoldList_nil (doc : SrcDoc) (f : Nat) (seen : SeenSet) :
    unfoldList doc (f + 1) seen [] = some ([], seen) := rfl

theorem unfoldList_cons (doc : SrcDoc) (f : Nat) (seen : SeenSet) (x : Object)
    (xs : List Object) :
    unfoldList doc (f + 1) seen (x :: xs) =
      match unfold doc f seen x with
      | none => none
      | some (t, s1) =>
          match unfoldList doc f s1 xs with
          | none => none
          | some (ts, s2) => some (t :: ts, s2) := rfl

/-- `unfoldList_cons` restated through `Option.bind`/`Option.map`. -/
theorem unfoldList_cons_bind (doc : SrcDoc) (f : Nat) (seen : SeenSet) (x : Object)
    (xs : List Object) :
    unfoldList doc (f + 1) seen (x :: xs) =
      (unfold doc f seen x).bind
        (fun p => (unfoldList doc f p.2 xs).map (fun q => (p.1 :: q.1, q.2))) := by
  rw [unfoldList_cons]
  rcases h1 : unfold doc f seen x with - | ⟨t1, s1⟩
  · rfl
  · rcases h2 : unfoldList doc f s1 xs with - | ⟨ts2, s2⟩ <;> simp [Option.bind, h2]

@[simp]
theorem unfoldDict_nil (doc : SrcDoc) (f : Nat) (seen : SeenSet) :
    unfoldDict doc (f + 1) seen [] = some ([], seen) := rfl

theorem unfoldDict_cons (doc : SrcDoc) (f : Nat) (seen : SeenSet) (s : String)
    (o : Object) (rest : List (String × Object)) :
    unfoldDict doc (f + 1) seen ((s, o) :: rest) =
      if s = "Parent" then unfoldDict doc f seen rest
      else
        match unfold doc f seen o with
        | none => none
        | some (t, s1) =>
            match unfoldDict doc f s1 rest with
            | none => none
            | some (res, s2) => some ((s, t) :: res, s2) := rfl

/-- `unfoldDict_cons` restated through `Option.bind`/`Option.map`. -/
theorem unfoldDict_cons_bind (doc : SrcDoc) (f : Nat) (seen : SeenSet) (s : String)
    (o : Object) (rest : List (String × Object)) :
    unfoldDict doc (f + 1) seen ((s, o) :: rest) =
      if s = "Parent" then unfoldDict doc f seen rest
      else
        (unfold doc f seen o).bind
          (fun p => (unfoldDict doc f p.2 rest).map (fun q => ((s, p.1) :: q.1, q.2))) := by
  rw [unfoldDict_cons]
  by_cases hp : s = "Parent"
  · rw [if_pos hp, if_pos hp]
  · rw [if_neg hp, if_neg hp]
    rcases h1 : unfold doc f seen o with - | ⟨t1, s1⟩
    · rfl
    · rcases h2 : unfoldDict doc f s1 rest with - | ⟨res2, s2⟩ <;> simp [Option.bind, h2]

@[simp]
theorem utrace_fuel_zero (doc : SrcDoc) (seen : SeenSet) (o : Object) :
    utrace doc 0 seen o = [] := rfl

theorem utrace_reference (doc : SrcDoc) (f : Nat) (seen : SeenSet) (oid : ObjectId) :
    utrace doc (f + 1) seen (.reference oid) =
      if oid ∈ seen then []
      else
        match getObject doc oid with
        | none => []
        | some x => oid :: utrace doc f (oid :: seen) x := rfl

/-! Basic facts about the source store and the fuel bound. -/

theorem getObject_mem {doc : SrcDoc} {oid : ObjectId} {x : Object}
    (h : getObject doc oid = some x) : (oid, x) ∈ doc := by
  induction doc with
  | nil => simp [getObject] at h
  | cons p rest ih =>
      obtain ⟨k, o⟩ := p
      by_cases hk : k = oid
      · subst hk
        simp [getObject] at h
        simp [h]
      · simp [getObject, hk] at h
        exact List.mem_cons_of_mem _ (ih h)

theorem mem_docIds_of_getObject {doc : SrcDoc} {oid : ObjectId} {x : Object}
    (h : getObject doc oid = some x) : oid ∈ docIds doc := by
  have hm := getObject_mem h
  have : oid ∈ doc.map Prod.fst := List.mem_map.mpr ⟨(oid, x), hm, rfl⟩
  simpa [docIds] using this

theorem osize_le_maxObjSize {doc : SrcDoc} {oid : ObjectId} {x : Object}
    (h : getObject doc oid = some x) : osize x ≤ maxObjSize doc := by
  have hm := getObject_mem h
  clear h
  induction doc with
  | nil => simp at hm
  | cons p rest ih =>
      rcases List.mem_cons.mp hm with h | h
      · subst h
        simp [maxObjSize]
      · have := ih h
        simp only [maxObjSize, List.map_cons, List.foldr_cons]
        exact le_max_of_le_right (by simpa [maxObjSize] using this)

theorem filter_unseen_insert {l : List ObjectId} {oid : ObjectId} {seen : SeenSet}
    (hnd : l.Nodup) (hmem : oid ∈ l) (hns : oid ∉ seen) :
    (l.filter (fun i => decide (i ∉ oid :: seen))).length + 1 =
      (l.filter (fun i => decide (i ∉ seen))).length := by
  induction l with
  | nil => simp at hmem
  | cons a l ih =>
      have hndl : l.Nodup := (List.nodup_cons.mp hnd).2
      have hanl : a ∉ l := (List.nodup_cons.mp hnd).1
      rcases List.mem_cons.mp hmem with h | h
      · have h' : a = oid := h.symm
        subst h'
        have hlf : ∀ i ∈ l, (decide (i ∉ a :: seen)) = (decide (i ∉ seen)) := by
          intro i hi
          have hne : i ≠ a := fun he => hanl (he ▸ hi)
          simp [List.mem_cons, hne]
        have e1 : (decide (a ∉ a :: seen)) = false := by simp
        have e2 : (decide (a ∉ seen)) = true := by simpa using hns
        simp only [List.filter_cons, e1, e2, if_true, if_false, List.length_cons]
        rw [List.filter_congr hlf]
        simp
      · have hih := ih hndl h
        by_cases ha : a ∈ seen
        · have e1 : (decide (a ∉ oid :: seen)) = false := by
            simp [List.mem_cons, ha]
          have e2 : (decide (a ∉ seen)) = false := by simpa using ha
          simp only [List.filter_cons, e1, e2, if_false]
          exact hih
        · have hao : a ≠ oid := fun he => (he ▸ hanl) h
          have e1 : (decide (a ∉ oid :: seen)) = true := by
            simp [List.mem_cons, hao, ha]
          have e2 : (decide (a ∉ seen)) = true := by simpa using ha
          simp only [List.filter_cons, e1, e2, if_true, List.length_cons]
          omega

theorem unseenCount_insert {doc : SrcDoc} {oid : ObjectId} {seen : SeenSet}
    (hmem : oid ∈ docIds doc) (hns : oid ∉ seen) :
    unseenCount doc (oid :: seen) + 1 = unseenCount doc seen :=
  filter_unseen_insert (List.nodup_dedup _) hmem hns

theorem unseenCount_le_of_subset {doc : SrcDoc} {s₁ s₂ : SeenSet}
    (h : ∀ x ∈ s₁, x ∈ s₂) : unseenCount doc s₂ ≤ unseenCount doc s₁ := by
  unfold unseenCount
  refine List.Sublist.length_le (List.monotone_filter_right _ ?_)
  intro a ha
  simp only [decide_eq_true_eq] at ha ⊢
  exact fun hmem => ha (h a hmem)

/-! The walk only grows the seen set. -/

theorem unfold_seen_subset (doc : SrcDoc) :
    ∀ f : Nat,
      (∀ seen o t s', unfold doc f seen o = some (t, s') → ∀ x ∈ seen, x ∈ s') ∧
      (∀ seen l ts s', unfoldList doc f seen l = some (ts, s') → ∀ x ∈ seen, x ∈ s') ∧
      (∀ seen e res s', unfoldDict doc f seen e = some (res, s') → ∀ x ∈ seen, x ∈ s') := by
  intro f
  induction f with
  | zero =>
      refine ⟨?_, ?_, ?_⟩ <;> · intro seen a t s' h
                                simp at h
  | succ f ih =>
      obtain ⟨iho, ihl, ihd⟩ := ih
      refine ⟨?_, ?_, ?_⟩
      · intro seen o t s' h x hx
        cases o with
        | null => rw [unfold_null] at h; simp only [Option.some.injEq, Prod.mk.injEq] at h; exact h.2 ▸ hx
        | boolean b => rw [unfold_boolean] at h; simp only [Option.some.injEq, Prod.mk.injEq] at h; exact h.2 ▸ hx
        | integer i => rw [unfold_integer] at h; simp only [Option.some.injEq, Prod.mk.injEq] at h; exact h.2 ▸ hx
        | real bits => rw [unfold_real] at h; simp only [Option.some.injEq, Prod.mk.injEq] at h; exact h.2 ▸ hx
        | name s => rw [unfold_name] at h; simp only [Option.some.injEq, Prod.mk.injEq] at h; exact h.2 ▸ hx
        | string s fmt => rw [unfold_string] at h; simp only [Option.some.injEq, Prod.mk.injEq] at h; exact h.2 ▸ hx
        | stream s => rw [unfold_stream] at h; simp only [Option.some.injEq, Prod.mk.injEq] at h; exact h.2 ▸ hx
        | array v =>
            rw [unfold_array] at h
            rcases Option.map_eq_some'.mp h with ⟨⟨ts, s2⟩, hl, he⟩
            have hs : s2 = s' := congrArg Prod.snd he
            exact hs ▸ ihl _ _ _ _ hl x hx
        | dictionary e =>
            rw [unfold_dictionary] at h
            rcases Option.map_eq_some'.mp h with ⟨⟨res, s2⟩, hd, he⟩
            have hs : s2 = s' := congrArg Prod.snd he
            exact hs ▸ ihd _ _ _ _ hd x hx
        | reference oid =>
            rw [unfold_reference] at h
            by_cases hm : oid ∈ seen
            · rw [if_pos hm] at h
              simp only [Option.some.injEq, Prod.mk.injEq] at h
              exact h.2 ▸ hx
            · rw [if_neg hm] at h
              rcases hg : getObject doc oid with - | xv
              · rw [hg] at h
                simp only [Option.some.injEq, Prod.mk.injEq] at h
                exact h.2 ▸ List.mem_cons_of_mem _ hx
              · rw [hg] at h
                rcases Option.map_eq_some'.mp h with ⟨⟨t1, s2⟩, hu, he⟩
                have hs : s2 = s' := congrArg Prod.snd he
                exact hs ▸ iho _ _ _ _ hu x (List.mem_cons_of_mem _ hx)
      · intro seen l ts s' h x hx
        cases l with
        | nil =>
            rw [unfoldList_nil] at h
            simp only [Option.some.injEq, Prod.mk.injEq] at h
            exact h.2 ▸ hx
        | cons y ys =>
            rw [unfoldList_cons_bind] at h
            rcases Option.bind_eq_some.mp h with ⟨⟨t1, s1⟩, h1, h2⟩
            rcases Option.map_eq_some'.mp h2 with ⟨⟨ts2, s2⟩, hl, he⟩
            have hs : s2 = s' := congrArg Prod.snd he
            exact hs ▸ ihl _ _ _ _ hl x (iho _ _ _ _ h1 x hx)
      · intro seen e res s' h x hx
        cases e with
        | nil =>
            rw [unfoldDict_nil] at h
            simp only [Option.some.injEq, Prod.mk.injEq] at h
            exact h.2 ▸ hx
        | cons p rest =>
            obtain ⟨s, o⟩ := p
            rw [unfoldDict_cons_bind] at h
            by_cases hp : s = "Parent"
            · rw [if_pos hp] at h
              exact ihd _ _ _ _ h x hx
            · rw [if_neg hp] at h
              rcases Option.bind_eq_some.mp h with ⟨⟨t1, s1⟩, h1, h2⟩
              rcases Option.map_eq_some'.mp h2 with ⟨⟨res2, s2⟩, hdd, he⟩
              have hs : s2 = s' := congrArg Prod.snd he
              exact hs ▸ ihd _ _ _ _ hdd x (iho _ _ _ _ h1 x hx)

/-! A successful walk is unchanged by extra fuel. -/

theorem unfold_fuel_mono (doc : SrcDoc) :
    ∀ f : Nat,
      (∀ seen o r, unfold doc f seen o = some r → unfold doc (f + 1) seen o = some r) ∧
      (∀ seen l r, unfoldList doc f seen l = some r → unfoldList doc (f + 1) seen l = some r) ∧
      (∀ seen e r, unfoldDict doc f seen e = some r → unfoldDict doc (f + 1) seen e = some r) := by
  intro f
  induction f with
  | zero =>
      refine ⟨?_, ?_, ?_⟩ <;> · intro seen a r h
                                simp at h
  | succ f ih =>
      obtain ⟨iho, ihl, ihd⟩ := ih
      refine ⟨?_, ?_, ?_⟩
      · intro seen o r h
        cases o with
        | null => exact h
        | boolean b => exact h
        | integer i => exact h
        | real bits => exact h
        | name s => exact h
        | string s fmt => exact h
        | stream s => exact h
        | array v =>
            rw [unfold_array] at h ⊢
            rcases Option.map_eq_some'.mp h with ⟨p, hl, he⟩
            rw [ihl _ _ _ hl]
            simpa using he
        | dictionary e =>
            rw [unfold_dictionary] at h ⊢
            rcases Option.map_eq_some'.mp h with ⟨p, hd, he⟩
            rw [ihd _ _ _ hd]
            simpa using he
        | reference oid =>
            rw [unfold_reference] at h ⊢
            by_cases hm : oid ∈ seen
            · rwa [if_pos hm] at h ⊢
            · rw [if_neg hm] at h ⊢
              rcases hg : getObject doc oid with - | xv
              · rw [hg] at h
                exact h
              · rw [hg] at h
                have h' :
                    (unfold doc f (oid :: seen) xv).map
                      (fun p => (.subTree p.1, p.2)) = some r := h
                rcases Option.map_eq_some'.mp h' with ⟨p, hu, he⟩
                show (unfold doc (f + 1) (oid :: seen) xv).map
                    (fun p => (.subTree p.1, p.2)) = some r
                rw [iho _ _ _ hu]
                simpa using he
      · intro seen l r h
        cases l with
        | nil => exact h
        | cons y ys =>
            rw [unfoldList_cons_bind] at h ⊢
            rcases Option.bind_eq_some.mp h with ⟨p, h1, h2⟩
            rcases Option.map_eq_some'.mp h2 with ⟨q, hl, he⟩
            rw [iho _ _ _ h1]
            simp only [Option.some_bind]
            rw [ihl _ _ _ hl]
            simpa using he
      · intro seen e r h
        cases e with
        | nil => exact h
        | cons p rest =>
            obtain ⟨s, o⟩ := p
            rw [unfoldDict_cons_bind] at h ⊢
            by_cases hp : s = "Parent"
            · rw [if_pos hp] at h ⊢
              exact ihd _ _ _ h
            · rw [if_neg hp] at h ⊢
              rcases Option.bind_eq_some.mp h with ⟨q, h1, h2⟩
              rcases Option.map_eq_some'.mp h2 with ⟨w, hdd, he⟩
              rw [iho _ _ _ h1]
              simp only [Option.some_bind]
              rw [ihd _ _ _ hdd]
              simpa using he

theorem unfold_fuel_mono_le (doc : SrcDoc) {f f' : Nat} (hle : f ≤ f')
    {seen : SeenSet} {o : Object} {r : PDFTree × SeenSet}
    (h : unfold doc f seen o = some r) : unfold doc f' seen o = some r := by
  induction f' with
  | zero =>
      have h0 : f = 0 := Nat.le_zero.mp hle
      subst h0
      exact h
  | succ f' ih =>
      rcases Nat.lt_or_ge f (f' + 1) with hlt | hge
      · exact (unfold_fuel_mono doc f').1 _ _ _ (ih (Nat.lt_succ_iff.mp hlt))
      · have he : f = f' + 1 := Nat.le_antisymm hle hge
        subst he
        exact h

theorem unfold_agree (doc : SrcDoc) {f f' : Nat} {seen : SeenSet} {o : Object}
    {r r' : PDFTree × SeenSet} (h : unfold doc f seen o = some r)
    (h' : unfold doc f' seen o = some r') : r = r' := by
  rcases Nat.le_total f f' with hle | hle
  · have hh := unfold_fuel_mono_le doc hle h
    rw [hh] at h'
    exact Option.some.inj h'
  · have hh := unfold_fuel_mono_le doc hle h'
    rw [hh] at h
    exact (Option.some.inj h).symm

/-! Fuel above the bound never runs out: the walk terminates.  Each recursion
through a reference consumes one unseen document id (worth `1 + maxObjSize`
of fuel, covering the referenced object's structure), and structural
recursion consumes the object's own size. -/

theorem unfold_isSome_of_bound (doc : SrcDoc) :
    ∀ f : Nat,
      (∀ seen o, osize o + unseenCount doc seen * (1 + maxObjSize doc) < f →
        (unfold doc f seen o).isSome) ∧
      (∀ seen l, olsize l + unseenCount doc seen * (1 + maxObjSize doc) < f →
        (unfoldList doc f seen l).isSome) ∧
      (∀ seen e, odsize e + unseenCount doc seen * (1 + maxObjSize doc) < f →
        (unfoldDict doc f seen e).isSome) := by
  intro f
  induction f with
  | zero =>
      refine ⟨?_, ?_, ?_⟩ <;> · intro seen a h
                                exact absurd h (Nat.not_lt_zero _)
  | succ f ih =>
      obtain ⟨iho, ihl, ihd⟩ := ih
      refine ⟨?_, ?_, ?_⟩
      · intro seen o h
        cases o with
        | null => simp
        | boolean b => simp
        | integer i => simp
        | real bits => simp
        | name s => simp
        | string s fmt => simp
        | stream s => simp
        | array v =>
            simp only [osize] at h
            have hl := ihl seen v (by linarith)
            rw [unfold_array]
            rcases hx : unfoldList doc f seen v with - | p
            · rw [hx] at hl; simp at hl
            · simp
        | dictionary e =>
            simp only [osize] at h
            have hd := ihd seen e (by linarith)
            rw [unfold_dictionary]
            rcases hx : unfoldDict doc f seen e with - | p
            · rw [hx] at hd; simp at hd
            · simp
        | reference oid =>
            simp only [osize] at h
            rw [unfold_reference]
            by_cases hm : oid ∈ seen
            · rw [if_pos hm]; simp
            · rw [if_neg hm]
              rcases hg : getObject doc oid with - | xv
              · simp
              · have hu : unseenCount doc (oid :: seen) + 1 = unseenCount doc seen :=
                  unseenCount_insert (mem_docIds_of_getObject hg) hm
                have hsz : osize xv ≤ maxObjSize doc := osize_le_maxObjSize hg
                have hexp :
                    unseenCount doc seen * (1 + maxObjSize doc) =
                      unseenCount doc (oid :: seen) * (1 + maxObjSize doc) +
                        (1 + maxObjSize doc) := by
                  rw [← hu]; ring
                have hlt :
                    osize xv + unseenCount doc (oid :: seen) * (1 + maxObjSize doc) < f := by
                  linarith
                have hs := iho (oid :: seen) xv hlt
                show ((unfold doc f (oid :: seen) xv).map
                    (fun p => (PDFTree.subTree p.1, p.2))).isSome = true
                rcases hx : unfold doc f (oid :: seen) xv with - | p
                · rw [hx] at hs; simp at hs
                · simp
      · intro seen l h
        cases l with
        | nil => simp
        | cons y ys =>
            simp only [olsize] at h
            have h1 := iho seen y (by linarith)
            rcases hx : unfold doc f seen y with - | ⟨t1, s1⟩
            · rw [hx] at h1; simp at h1
            · have hsub : ∀ x ∈ seen, x ∈ s1 := (unfold_seen_subset doc f).1 _ _ _ _ hx
              have hle := @unseenCount_le_of_subset doc _ _ hsub
              have hmul := Nat.mul_le_mul_right (1 + maxObjSize doc) hle
              have h2 := ihl s1 ys (by linarith)
              rw [unfoldList_cons_bind, hx]
              simp only [Option.some_bind]
              rcases hx2 : unfoldList doc f s1 ys with - | p
              · rw [hx2] at h2; simp at h2
              · simp
      · intro seen e h
        cases e with
        | nil => simp
        | cons p rest =>
            obtain ⟨s, o⟩ := p
            simp only [odsize] at h
            rw [unfoldDict_cons_bind]
            by_cases hp : s = "Parent"
            · rw [if_pos hp]
              exact ihd seen rest (by linarith)
            · rw [if_neg hp]
              have h1 := iho seen o (by linarith)
              rcases hx : unfold doc f seen o with - | ⟨t1, s1⟩
              · rw [hx] at h1; simp at h1
              · have hsub : ∀ x ∈ seen, x ∈ s1 := (unfold_seen_subset doc f).1 _ _ _ _ hx
                have hle := @unseenCount_le_of_subset doc _ _ hsub
                have hmul := Nat.mul_le_mul_right (1 + maxObjSize doc) hle
                have h2 := ihd s1 rest (by linarith)
                simp only [Option.some_bind]
                rcases hx2 : unfoldDict doc f s1 rest with - | p
                · rw [hx2] at h2; simp at h2
                · simp

/-! Definitional equations for the expansion trace, and the at-most-once
property: the walk never expands the same source object twice. -/

@[simp]
theorem utrace_null (doc : SrcDoc) (f : Nat) (seen : SeenSet) :
    utrace doc (f + 1) seen .null = [] := rfl

@[simp]
theorem utrace_boolean (doc : SrcDoc) (f : Nat) (seen : SeenSet) (b : Bool) :
    utrace doc (f + 1) seen (.boolean b) = [] := rfl

@[simp]
theorem utrace_integer (doc : SrcDoc) (f : Nat) (seen : SeenSet) (i : Int) :
    utrace doc (f + 1) seen (.integer i) = [] := rfl

@[simp]
theorem utrace_real (doc : SrcDoc) (f : Nat) (seen : SeenSet) (bits : Nat) :
    utrace doc (f + 1) seen (.real bits) = [] := rfl

@[simp]
theorem utrace_name (doc : SrcDoc) (f : Nat) (seen : SeenSet) (s : String) :
    utrace doc (f + 1) seen (.name s) = [] := rfl

@[simp]
theorem utrace_string (doc : SrcDoc) (f : Nat) (seen : SeenSet) (s : String)
    (fmt : StringFormat) : utrace doc (f + 1) seen (.string s fmt) = [] := rfl

@[simp]
theorem utrace_stream (doc : SrcDoc) (f : Nat) (seen : SeenSet) (s : Nat) :
    utrace doc (f + 1) seen (.stream s) = [] := rfl

@[simp]
theorem utrace_array (doc : SrcDoc) (f : Nat) (seen : SeenSet) (v : List Object) :
    utrace doc (f + 1) seen (.array v) = utraceList doc f seen v := rfl

@[simp]
theorem utrace_dictionary (doc : SrcDoc) (f : Nat) (seen : SeenSet)
    (e : List (String × Object)) :
    utrace doc (f + 1) seen (.dictionary e) = utraceDict doc f seen e := rfl

@[simp]
theorem utraceList_nil (doc : SrcDoc) (f : Nat) (seen : SeenSet) :
    utraceList doc (f + 1) seen [] = [] := rfl

@[simp]
theorem utraceDict_nil (doc : SrcDoc) (f : Nat) (seen : SeenSet) :
    utraceDict doc (f + 1) seen [] = [] := rfl

@[simp]
theorem utraceList_fuel_zero (doc : SrcDoc) (seen : SeenSet) (l : List Object) :
    utraceList doc 0 seen l = [] := rfl

@[simp]
theorem utraceDict_fuel_zero (doc : SrcDoc) (seen : SeenSet)
    (e : List (String × Object)) : utraceDict doc 0 seen e = [] := rfl

theorem utrace_reference_seen {doc : SrcDoc} {f : Nat} {seen : SeenSet}
    {oid : ObjectId} (hm : oid ∈ seen) :
    utrace doc (f + 1) seen (.reference oid) = [] := by
  rw [utrace_reference, if_pos hm]

theorem utrace_reference_missing {doc : SrcDoc} {f : Nat} {seen : SeenSet}
    {oid : ObjectId} (hm : oid ∉ seen) (hg : getObject doc oid = none) :
    utrace doc (f + 1) seen (.reference oid) = [] := by
  rw [utrace_reference, if_neg hm, hg]

theorem utrace_reference_expand {doc : SrcDoc} {f : Nat} {seen : SeenSet}
    {oid : ObjectId} {xv : Object} (hm : oid ∉ seen)
    (hg : getObject doc oid = some xv) :
    utrace doc (f + 1) seen (.reference oid) =
      oid :: utrace doc f (oid :: seen) xv := by
  rw [utrace_reference, if_neg hm, hg]

theorem utraceList_cons_of_some {doc : SrcDoc} {f : Nat} {seen s1 : SeenSet}
    {y : Object} {t1 : PDFTree} (ys : List Object)
    (hx : unfold doc f seen y = some (t1, s1)) :
    utraceList doc (f + 1) seen (y :: ys) =
      utrace doc f seen y ++ utraceList doc f s1 ys := by
  have hb : (unfoldF doc f).obj seen y = some (t1, s1) := hx
  simp only [utraceList, utrace, traceF, mkTraceFns, hb]

theorem utraceDict_cons_parent {doc : SrcDoc} (f : Nat) (seen : SeenSet)
    {s : String} (o : Object) (rest : List (String × Object))
    (hp : s = "Parent") :
    utraceDict doc (f + 1) seen ((s, o) :: rest) = utraceDict doc f seen rest := by
  simp only [utraceDict, traceF, mkTraceFns]
  rw [if_pos hp]

theorem utraceDict_cons_of_some {doc : SrcDoc} {f : Nat} {seen s1 : SeenSet}
    {s : String} {o : Object} {t1 : PDFTree} (rest : List (String × Object))
    (hp : ¬ s = "Parent") (hx : unfold doc f seen o = some (t1, s1)) :
    utraceDict doc (f + 1) seen ((s, o) :: rest) =
      utrace doc f seen o ++ utraceDict doc f s1 rest := by
  have hb : (unfoldF doc f).obj seen o = some (t1, s1) := hx
  simp only [utraceDict, utrace, traceF, mkTraceFns, hb]
  rw [if_neg hp]

theorem utrace_nodup (doc : SrcDoc) :
    ∀ f : Nat,
      (∀ seen o t s', unfold doc f seen o = some (t, s') →
        (utrace doc f seen o).Nodup ∧
          ∀ a ∈ utrace doc f seen o, a ∉ seen ∧ a ∈ s') ∧
      (∀ seen l ts s', unfoldList doc f seen l = some (ts, s') →
        (utraceList doc f seen l).Nodup ∧
          ∀ a ∈ utraceList doc f seen l, a ∉ seen ∧ a ∈ s') ∧
      (∀ seen e res s', unfoldDict doc f seen e = some (res, s') →
        (utraceDict doc f seen e).Nodup ∧
          ∀ a ∈ utraceDict doc f seen e, a ∉ seen ∧ a ∈ s') := by
  intro f
  induction f with
  | zero =>
      refine ⟨?_, ?_, ?_⟩ <;> · intro seen a t s' h
                                simp at h
  | succ f ih =>
      obtain ⟨iho, ihl, ihd⟩ := ih
      refine ⟨?_, ?_, ?_⟩
      · intro seen o t s' h
        cases o with
        | null => simp
        | boolean b => simp
        | integer i => simp
        | real bits => simp
        | name s => simp
        | string s fmt => simp
        | stream s => simp
        | array v =>
            rw [unfold_array] at h
            rcases Option.map_eq_some'.mp h with ⟨⟨ts, s2⟩, hl, he⟩
            have hs : s2 = s' := congrArg Prod.snd he
            rw [utrace_array]
            exact hs ▸ ihl _ _ _ _ hl
        | dictionary e =>
            rw [unfold_dictionary] at h
            rcases Option.map_eq_some'.mp h with ⟨⟨res, s2⟩, hd, he⟩
            have hs : s2 = s' := congrArg Prod.snd he
            rw [utrace_dictionary]
            exact hs ▸ ihd _ _ _ _ hd
        | reference oid =>
            rw [unfold_reference] at h
            by_cases hm : oid ∈ seen
            · rw [utrace_reference_seen hm]
              simp
            · rw [if_neg hm] at h
              rcases hg : getObject doc oid with - | xv
              · rw [utrace_reference_missing hm hg]
                simp
              · rw [hg] at h
                have h' :
                    (unfold doc f (oid :: seen) xv).map
                      (fun p => (.subTree p.1, p.2)) = some (t, s') := h
                rcases Option.map_eq_some'.mp h' with ⟨⟨t1, s2⟩, hu, he⟩
                have hs : s2 = s' := congrArg Prod.snd he
                rw [utrace_reference_expand hm hg]
                obtain ⟨hnd, hmem⟩ := iho _ _ _ _ hu
                have hsub : ∀ x ∈ oid :: seen, x ∈ s2 :=
                  (unfold_seen_subset doc f).1 _ _ _ _ hu
                constructor
                · refine List.nodup_cons.mpr ⟨?_, hnd⟩
                  intro hin
                  exact (hmem oid hin).1 (List.mem_cons_self _ _)
                · intro a ha
                  rcases List.mem_cons.mp ha with rfl | ha
                  · exact ⟨hm, hs ▸ hsub a (List.mem_cons_self _ _)⟩
                  · obtain ⟨h1, h2⟩ := hmem a ha
                    exact ⟨fun hc => h1 (List.mem_cons_of_mem _ hc), hs ▸ h2⟩
      · intro seen l ts s' h
        cases l with
        | nil => simp
        | cons y ys =>
            rw [unfoldList_cons_bind] at h
            rcases Option.bind_eq_some.mp h with ⟨⟨t1, s1⟩, h1, h2⟩
            rcases Option.map_eq_some'.mp h2 with ⟨⟨ts2, s2⟩, hl, he⟩
            have hs : s2 = s' := congrArg Prod.snd he
            rw [utraceList_cons_of_some ys h1]
            obtain ⟨hnd1, hmem1⟩ := iho _ _ _ _ h1
            obtain ⟨hnd2, hmem2⟩ := ihl _ _ _ _ hl
            have hsub1 : ∀ x ∈ seen, x ∈ s1 := (unfold_seen_subset doc f).1 _ _ _ _ h1
            have hsub2 : ∀ x ∈ s1, x ∈ s2 := (unfold_seen_subset doc f).2.1 _ _ _ _ hl
            constructor
            · refine List.Nodup.append hnd1 hnd2 ?_
              intro a ha1 ha2
              exact (hmem2 a ha2).1 ((hmem1 a ha1).2)
            · intro a ha
              rcases List.mem_append.mp ha with ha | ha
              · obtain ⟨h1', h2'⟩ := hmem1 a ha
                exact ⟨h1', hs ▸ hsub2 a h2'⟩
              · obtain ⟨h1', h2'⟩ := hmem2 a ha
                exact ⟨fun hc => h1' (hsub1 a hc), hs ▸ h2'⟩
      · intro seen e res s' h
        cases e with
        | nil => simp
        | cons p rest =>
            obtain ⟨s, o⟩ := p
            rw [unfoldDict_cons_bind] at h
            by_cases hp : s = "Parent"
            · rw [if_pos hp] at h
              rw [utraceDict_cons_parent _ _ _ _ hp]
              exact ihd _ _ _ _ h
            · rw [if_neg hp] at h
              rcases Option.bind_eq_some.mp h with ⟨⟨t1, s1⟩, h1, h2⟩
              rcases Option.map_eq_some'.mp h2 with ⟨⟨res2, s2⟩, hdd, he⟩
              have hs : s2 = s' := congrArg Prod.snd he
              rw [utraceDict_cons_of_some rest hp h1]
              obtain ⟨hnd1, hmem1⟩ := iho _ _ _ _ h1
              obtain ⟨hnd2, hmem2⟩ := ihd _ _ _ _ hdd
              have hsub1 : ∀ x ∈ seen, x ∈ s1 := (unfold_seen_subset doc f).1 _ _ _ _ h1
              have hsub2 : ∀ x ∈ s1, x ∈ s2 := (unfold_seen_subset doc f).2.2 _ _ _ _ hdd
              constructor
              · refine List.Nodup.append hnd1 hnd2 ?_
                intro a ha1 ha2
                exact (hmem2 a ha2).1 ((hmem1 a ha1).2)
              · intro a ha
                rcases List.mem_append.mp ha with ha | ha
                · obtain ⟨h1', h2'⟩ := hmem1 a ha
                  exact ⟨h1', hs ▸ hsub2 a h2'⟩
                · obtain ⟨h1', h2'⟩ := hmem2 a ha
                  exact ⟨fun hc => h1' (hsub1 a hc), hs ▸ h2'⟩

/-! ## Claim C1 -/

/-- C1: For every source document (a finite object store) and every root /
seen-set / object configuration, the tree builder's depth-first unfold
terminates: with any fuel at least the explicit bound `fuelBound` (one unit
per structural node plus one budget of `1 + maxObjSize` per distinct unseen
document id), the walk completes (`isSome`), its result does not depend on
the fuel chosen, and the ids expanded during the walk are pairwise distinct —
each source object is expanded at most once, references to already-seen ids
are emitted as back-references without recursion, so the resulting tree is
finite even on cyclic object graphs. -/
theorem c1_tree_builder_terminates (doc : SrcDoc) (seen : SeenSet) (o : Object)
    (f₁ f₂ : Nat) (h₁ : fuelBound doc seen o ≤ f₁) (h₂ : fuelBound doc seen o ≤ f₂) :
    (unfold doc f₁ seen o).isSome ∧
      unfold doc f₁ seen o = unfold doc f₂ seen o ∧
      (utrace doc f₁ seen o).Nodup := by
  have hb₁ : osize o + unseenCount doc seen * (1 + maxObjSize doc) < f₁ := by
    unfold fuelBound at h₁
    linarith
  have hb₂ : osize o + unseenCount doc seen * (1 + maxObjSize doc) < f₂ := by
    unfold fuelBound at h₂
    linarith
  have hs₁ := (unfold_isSome_of_bound doc f₁).1 seen o hb₁
  have hs₂ := (unfold_isSome_of_bound doc f₂).1 seen o hb₂
  obtain ⟨r₁, hr₁⟩ := Option.isSome_iff_exists.mp hs₁
  obtain ⟨r₂, hr₂⟩ := Option.isSome_iff_exists.mp hs₂
  have hrr : r₁ = r₂ := unfold_agree doc hr₁ hr₂
  refine ⟨hs₁, by rw [hr₁, hr₂, hrr], ?_⟩
  obtain ⟨t, s'⟩ := r₁
  exact ((utrace_nodup doc f₁).1 seen o t s' hr₁).1

/-- Witness for C1 at the spec's synthetic two-object cycle (A references B,
B references A through the non-`"Parent"` key `"Next"`). -/
theorem c1_witness :
    fuelBound cycleDoc [(1, 0)] (.dictionary [("Next", .reference (2, 0))]) ≤ 12 ∧
      fuelBound cycleDoc [(1, 0)] (.dictionary [("Next", .reference (2, 0))]) ≤ 13 ∧
      ((unfold cycleDoc 12 [(1, 0)] (.dictionary [("Next", .reference (2, 0))])).isSome ∧
        unfold cycleDoc 12 [(1, 0)] (.dictionary [("Next", .reference (2, 0))]) =
          unfold cycleDoc 13 [(1, 0)] (.dictionary [("Next", .reference (2, 0))]) ∧
        (utrace cycleDoc 12 [(1, 0)] (.dictionary [("Next", .reference (2, 0))])).Nodup) :=
  ⟨by decide, by decide,
    c1_tree_builder_terminates cycleDoc [(1, 0)]
      (.dictionary [("Next", .reference (2, 0))]) 12 13 (by decide) (by decide)⟩

/-! ## Dictionary keys through the walk (helpers for C3 and C5) -/

theorem unfoldDict_keys (doc : SrcDoc) :
    ∀ (f : Nat) (seen : SeenSet) (e : List (String × Object))
      (res : List (String × PDFTree)) (s' : SeenSet),
      unfoldDict doc f seen e = some (res, s') →
      res.map Prod.fst = (e.map Prod.fst).filter (fun k => decide (k ≠ "Parent")) := by
  intro f
  induction f with
  | zero =>
      intro seen e res s' h
      simp at h
  | succ f ih =>
      intro seen e res s' h
      cases e with
      | nil =>
          rw [unfoldDict_nil] at h
          simp only [Option.some.injEq, Prod.mk.injEq] at h
          rw [← h.1]
          simp
      | cons p rest =>
          obtain ⟨s, o⟩ := p
          rw [unfoldDict_cons_bind] at h
          by_cases hp : s = "Parent"
          · rw [if_pos hp] at h
            have := ih _ _ _ _ h
            subst hp
            simpa using this
          · rw [if_neg hp] at h
            rcases Option.bind_eq_some.mp h with ⟨⟨t1, s1⟩, h1, h2⟩
            rcases Option.map_eq_some'.mp h2 with ⟨⟨res2, s2⟩, hdd, he⟩
            have hres : (s, t1) :: res2 = res := congrArg Prod.fst he
            rw [← hres]
            have := ih _ _ _ _ hdd
            simp only [List.map_cons, List.filter_cons]
            rw [this]
            simp [hp]

theorem foldDict_keys :
    ∀ (res : List (String × PDFTree)) (d : Document),
      (foldDict res d).1.map Prod.fst = res.map Prod.fst := by
  intro res
  induction res with
  | nil => intro d; simp [foldDict]
  | cons p rest ih =>
      intro d
      obtain ⟨s, t⟩ := p
      simp [foldDict, ih]

theorem lookupObj_eq_none {l : List (ObjectId × Object)} {oid : ObjectId}
    (h : oid ∉ l.map Prod.fst) : lookupObj l oid = none := by
  induction l with
  | nil => rfl
  | cons p rest ih =>
      obtain ⟨k, o⟩ := p
      simp only [List.map_cons, List.mem_cons] at h
      push_neg at h
      simp only [lookupObj]
      rw [if_neg (fun hc => h.1 hc.symm)]
      exact ih h.2

/-! ## Claim C3 -/

/-- C3 counterexample: on the source dictionary
`[("Parent", Reference (9,0)), ("A", Integer 1)]` the tree builder produces a
dictionary whose entries are exactly `[("A", 1)]` — the key `"Parent"` is not
present at all (it is not mapped to `Null`, contradicting the claim that the
resulting dictionary still contains `"Parent"` bound to `Null`). -/
theorem c3_counterexample :
    unfoldDict [] 5 [] [("Parent", .reference (9, 0)), ("A", .integer 1)] =
      some ([("A", .integer 1)], []) ∧
      ∀ p ∈ [("A", PDFTree.integer 1)], p.1 ≠ "Parent" :=
  ⟨rfl, by decide⟩

/-- C3 (amended): the tree builder copies dictionary entries preserving the
original insertion order, except that the entry with key `"Parent"` is
omitted entirely: the resulting keys are exactly the source keys with
`"Parent"` filtered out, no entry of the result is keyed `"Parent"`, and the
`"Parent"` entry's value is never walked (the walk's outcome is unchanged by
replacing it with anything). -/
theorem c3_parent_omitted (doc : SrcDoc) (f : Nat) (seen : SeenSet)
    (e : List (String × Object)) (res : List (String × PDFTree)) (s' : SeenSet)
    (h : unfoldDict doc f seen e = some (res, s')) :
    res.map Prod.fst = (e.map Prod.fst).filter (fun k => decide (k ≠ "Parent")) ∧
      (∀ p ∈ res, p.1 ≠ "Parent") ∧
      (∀ (v v' : Object) (rest : List (String × Object)) (s0 : SeenSet),
        unfoldDict doc f s0 (("Parent", v) :: rest) =
          unfoldDict doc f s0 (("Parent", v') :: rest)) := by
  refine ⟨unfoldDict_keys doc f seen e res s' h, ?_, ?_⟩
  · intro p hp
    have hk := unfoldDict_keys doc f seen e res s' h
    have hmem : p.1 ∈ res.map Prod.fst := List.mem_map.mpr ⟨p, hp, rfl⟩
    rw [hk] at hmem
    have := List.of_mem_filter hmem
    simpa using this
  · intro v v' rest s0
    cases f with
    | zero => simp
    | succ f =>
        rw [unfoldDict_cons_bind, unfoldDict_cons_bind, if_pos rfl, if_pos rfl]

/-- Witness for C3's amended theorem on a concrete dictionary containing a
`"Parent"` entry. -/
theorem c3_witness :
    unfoldDict [] 5 [] [("Parent", .reference (9, 0)), ("B", .boolean true)] =
      some ([("B", .boolean true)], []) ∧
      ([("B", PDFTree.boolean true)].map Prod.fst =
          ([("Parent", Object.reference (9, 0)), ("B", Object.boolean true)].map
            Prod.fst).filter (fun k => decide (k ≠ "Parent")) ∧
        (∀ p ∈ [("B", PDFTree.boolean true)], p.1 ≠ "Parent") ∧
        (∀ (v v' : Object) (rest : List (String × Object)) (s0 : SeenSet),
          unfoldDict [] 5 s0 (("Parent", v) :: rest) =
            unfoldDict [] 5 s0 (("Parent", v') :: rest))) :=
  ⟨rfl, c3_parent_omitted [] 5 [] _ _ [] rfl⟩

/-! ## Claim C5 -/

/-- C5: dictionary key order is preserved end-to-end through unfold followed
by fold: the tree dictionary's keys are the source keys (with `"Parent"`
filtered out), folding preserves them, and for a source dictionary without a
`"Parent"` key — such as the spec's `A, B, C` example — the materialized
dictionary lists exactly the source keys in the source order. -/
theorem c5_dict_order_roundtrip (doc : SrcDoc) (f : Nat) (seen : SeenSet)
    (entries : List (String × Object)) (t : PDFTree) (s' : SeenSet)
    (h : unfold doc f seen (.dictionary entries) = some (t, s')) :
    ∃ res : List (String × PDFTree),
      t = .dictionary res ∧
        ∀ d : Document,
          (fold (.dictionary res) d).1 = .dictionary (foldDict res d).1 ∧
            (foldDict res d).1.map Prod.fst =
              (entries.map Prod.fst).filter (fun k => decide (k ≠ "Parent")) ∧
            ("Parent" ∉ entries.map Prod.fst →
              (foldDict res d).1.map Prod.fst = entries.map Prod.fst) := by
  cases f with
  | zero => simp at h
  | succ f =>
      rw [unfold_dictionary] at h
      rcases Option.map_eq_some'.mp h with ⟨⟨res, s2⟩, hd, he⟩
      have ht : PDFTree.dictionary res = t := congrArg Prod.fst he
      refine ⟨res, ht.symm, ?_⟩
      intro d
      have hkeys := unfoldDict_keys doc f seen entries res s2 hd
      have hfold := foldDict_keys res d
      refine ⟨by simp [fold], by rw [hfold, hkeys], ?_⟩
      intro hnp
      rw [hfold, hkeys]
      apply List.filter_eq_self.mpr
      intro k hk
      simp only [decide_eq_true_eq]
      exact fun hc => hnp (hc ▸ hk)

/-- Witness for C5 on the spec's `A, B, C` dictionary. -/
theorem c5_witness :
    unfold [] 9 [] (.dictionary [("A", .integer 1), ("B", .integer 2), ("C", .integer 3)]) =
      some (.dictionary [("A", .integer 1), ("B", .integer 2), ("C", .integer 3)], []) ∧
      ∃ res : List (String × PDFTree),
        PDFTree.dictionary [("A", .integer 1), ("B", .integer 2), ("C", .integer 3)] =
            .dictionary res ∧
          ∀ d : Document,
            (fold (.dictionary res) d).1 = .dictionary (foldDict res d).1 ∧
              (foldDict res d).1.map Prod.fst =
                ([("A", Object.integer 1), ("B", Object.integer 2),
                    ("C", Object.integer 3)].map Prod.fst).filter
                  (fun k => decide (k ≠ "Parent")) ∧
              ("Parent" ∉ [("A", Object.integer 1), ("B", Object.integer 2),
                  ("C", Object.integer 3)].map Prod.fst →
                (foldDict res d).1.map Prod.fst =
                  [("A", Object.integer 1), ("B", Object.integer 2),
                    ("C", Object.integer 3)].map Prod.fst) :=
  ⟨rfl, c5_dict_order_roundtrip [] 9 [] _ _ [] rfl⟩

/-! ## Claim C6 -/

/-- C6: the tree builder fails only for a missing root: `PDFTree::new`
returns an error exactly when the document does not contain the root id; a
reference encountered during the walk whose id is absent from the document
(and not yet seen) degrades to `Null` in the tree instead of failing. -/
theorem c6_new_fails_only_for_missing_root (doc : SrcDoc) (oid : ObjectId) :
    (pdftreeNew oid doc = none ↔ getObject doc oid = none) ∧
      (∀ (f : Nat) (seen : SeenSet) (r : ObjectId), r ∉ seen →
        getObject doc r = none →
        unfold doc (f + 1) seen (.reference r) = some (.null, r :: seen)) := by
  constructor
  · constructor
    · intro h
      by_contra hg
      obtain ⟨o, ho⟩ := Option.ne_none_iff_exists'.mp hg
      unfold pdftreeNew at h
      rw [ho] at h
      have h' :
          (unfold doc (fuelBound doc [oid] o) [oid] o).map Prod.fst = none := h
      have hb : osize o + unseenCount doc [oid] * (1 + maxObjSize doc) <
          fuelBound doc [oid] o := by
        unfold fuelBound
        linarith
      have hs := (unfold_isSome_of_bound doc _).1 [oid] o hb
      obtain ⟨r, hr⟩ := Option.isSome_iff_exists.mp hs
      rw [hr] at h'
      simp at h'
    · intro h
      unfold pdftreeNew
      rw [h]
  · intro f seen r hns hg
    rw [unfold_reference, if_neg hns, hg]

/-- Witness for C6: a root lookup fails only for an id absent from
`onePageDoc`, and a missing non-root reference becomes `Null`. -/
theorem c6_witness :
    (pdftreeNew (9, 9) onePageDoc = none ↔ getObject onePageDoc (9, 9) = none) ∧
      unfold onePageDoc 3 [(3, 0)] (.reference (5, 5)) =
        some (.null, (5, 5) :: [(3, 0)]) :=
  ⟨(c6_new_fails_only_for_missing_root onePageDoc (9, 9)).1,
    (c6_new_fails_only_for_missing_root onePageDoc (9, 9)).2 2 [(3, 0)] (5, 5)
      (by decide) rfl⟩

/-! ## Claim C10 -/

/-- C10: when the walk meets a reference whose id is absent from the source,
the id is inserted into the seen set before the failed lookup: the first
occurrence becomes `Null`, every later reference to the same missing id is
treated as already seen and stays a tree `Reference`, and the materializer
emits it into the destination unchanged — a dangling reference stored in
neither document. -/
theorem c10_missing_id_dangling_reference (doc : SrcDoc) (f : Nat)
    (seen : SeenSet) (oid : ObjectId) (d : Document) (h1 : oid ∉ seen)
    (h2 : getObject doc oid = none) :
    unfold doc (f + 1) seen (.reference oid) = some (.null, oid :: seen) ∧
      unfold doc (f + 1) (oid :: seen) (.reference oid) =
        some (.reference oid, oid :: seen) ∧
      fold (.reference oid) d = (.reference oid, d) ∧
      (oid ∉ docKeys d →
        lookupObj (fold (.reference oid) d).2.objects oid = none) := by
  refine ⟨?_, ?_, by simp [fold], ?_⟩
  · rw [unfold_reference, if_neg h1, h2]
  · rw [unfold_reference, if_pos (List.mem_cons_self _ _)]
  · intro hk
    have : (fold (.reference oid) d).2 = d := by simp [fold]
    rw [this]
    exact lookupObj_eq_none hk

/-- Witness for C10 on a concrete store without the id `(4,0)`. -/
theorem c10_witness :
    unfold onePageDoc 2 [] (.reference (4, 0)) = some (.null, [(4, 0)]) ∧
      unfold onePageDoc 2 [(4, 0)] (.reference (4, 0)) =
        some (.reference (4, 0), [(4, 0)]) ∧
      fold (.reference (4, 0)) Document.new = (.reference (4, 0), Document.new) ∧
      ((4, 0) ∉ docKeys Document.new →
        lookupObj (fold (.reference (4, 0)) Document.new).2.objects (4, 0) = none) := by
  have happ := c10_missing_id_dangling_reference onePageDoc 1 [] (4, 0)
    Document.new (by decide) rfl
  exact ⟨happ.1, happ.2.1, happ.2.2.1, happ.2.2.2⟩

/-! ## The materializer: equations and invariants -/

@[simp]
theorem fold_null (d : Document) : fold .null d = (.null, d) := rfl

@[simp]
theorem fold_boolean (b : Bool) (d : Document) :
    fold (.boolean b) d = (.boolean b, d) := rfl

@[simp]
theorem fold_integer (i : Int) (d : Document) :
    fold (.integer i) d = (.integer i, d) := rfl

@[simp]
theorem fold_real (bits : Nat) (d : Document) :
    fold (.real bits) d = (.real bits, d) := rfl

@[simp]
theorem fold_name (s : String) (d : Document) : fold (.name s) d = (.name s, d) := rfl

@[simp]
theorem fold_string (s : String) (fmt : StringFormat) (d : Document) :
    fold (.string s fmt) d = (.string s fmt, d) := rfl

@[simp]
theorem fold_stream (s : Nat) (d : Document) : fold (.stream s) d = (.stream s, d) := rfl

@[simp]
theorem fold_reference (oid : ObjectId) (d : Document) :
    fold (.reference oid) d = (.reference oid, d) := rfl

@[simp]
theorem fold_array (v : List PDFTree) (d : Document) :
    fold (.array v) d = (.array (foldList v d).1, (foldList v d).2) := rfl

@[simp]
theorem fold_dictionary (e : List (String × PDFTree)) (d : Document) :
    fold (.dictionary e) d = (.dictionary (foldDict e d).1, (foldDict e d).2) := rfl

theorem link_reference_eq (t : PDFTree) (d : Document) :
    link_reference t d = addObject (fold t d).1 (fold t d).2 := rfl

@[simp]
theorem fold_subTree (t : PDFTree) (d : Document) :
    fold (.subTree t) d =
      (.reference (link_reference t d).1, (link_reference t d).2) := rfl

@[simp]
theorem foldList_nil (d : Document) : foldList [] d = ([], d) := rfl

@[simp]
theorem foldList_cons (t : PDFTree) (ts : List PDFTree) (d : Document) :
    foldList (t :: ts) d =
      ((fold t d).1 :: (foldList ts (fold t d).2).1, (foldList ts (fold t d).2).2) := rfl

@[simp]
theorem foldDict_nil (d : Document) : foldDict [] d = ([], d) := rfl

@[simp]
theorem foldDict_cons (s : String) (t : PDFTree) (rest : List (String × PDFTree))
    (d : Document) :
    foldDict ((s, t) :: rest) d =
      ((s, (fold t d).1) :: (foldDict rest (fold t d).2).1,
        (foldDict rest (fold t d).2).2) := rfl

@[simp]
theorem foldLog_subTree (t : PDFTree) (d : Document) :
    foldLog (.subTree t) d = foldLog t d ++ [((fold t d).2.maxId + 1, 0)] := rfl

@[simp]
theorem foldLog_array (v : List PDFTree) (d : Document) :
    foldLog (.array v) d = foldListLog v d := rfl

@[simp]
theorem foldLog_dictionary (e : List (String × PDFTree)) (d : Document) :
    foldLog (.dictionary e) d = foldDictLog e d := rfl

@[simp]
theorem foldListLog_nil (d : Document) : foldListLog [] d = [] := rfl

@[simp]
theorem foldListLog_cons (t : PDFTree) (ts : List PDFTree) (d : Document) :
    foldListLog (t :: ts) d = foldLog t d ++ foldListLog ts (fold t d).2 := rfl

@[simp]
theorem foldDictLog_nil (d : Document) : foldDictLog [] d = [] := rfl

@[simp]
theorem foldDictLog_cons (s : String) (t : PDFTree) (rest : List (String × PDFTree))
    (d : Document) :
    foldDictLog ((s, t) :: rest) d = foldLog t d ++ foldDictLog rest (fold t d).2 := rfl

theorem lookupObj_objInsert_self (l : List (ObjectId × Object)) (id : ObjectId)
    (o : Object) : lookupObj (objInsert id o l) id = some o := by
  induction l with
  | nil => simp [objInsert, lookupObj]
  | cons p rest ih =>
      obtain ⟨k, v⟩ := p
      by_cases hk : k = id
      · simp [objInsert, lookupObj, hk]
      · simp only [objInsert, lookupObj, if_neg hk]
        exact ih

theorem lookupObj_objInsert_ne (l : List (ObjectId × Object)) {id id' : ObjectId}
    (o : Object) (h : id' ≠ id) :
    lookupObj (objInsert id o l) id' = lookupObj l id' := by
  induction l with
  | nil => simp [objInsert, lookupObj, Ne.symm h]
  | cons p rest ih =>
      obtain ⟨k, v⟩ := p
      by_cases hk : k = id
      · subst hk
        simp only [objInsert, if_pos rfl, lookupObj]
        rw [if_neg (fun hc => h hc.symm), if_neg (fun hc => h hc.symm)]
      · simp only [objInsert, if_neg hk, lookupObj]
        by_cases hk' : k = id'
        · rw [if_pos hk', if_pos hk']
        · rw [if_neg hk', if_neg hk']
          exact ih

theorem mem_objInsert {l : List (ObjectId × Object)} {p : ObjectId × Object}
    {id : ObjectId} {o : Object} (h : p ∈ objInsert id o l) :
    p = (id, o) ∨ p ∈ l := by
  induction l with
  | nil => simpa [objInsert] using h
  | cons q rest ih =>
      obtain ⟨k, v⟩ := q
      by_cases hk : k = id
      · subst hk
        simp only [objInsert, if_pos rfl] at h
        rcases List.mem_cons.mp h with h | h
        · exact Or.inl (by simpa using h)
        · exact Or.inr (List.mem_cons_of_mem _ h)
      · simp only [objInsert, if_neg hk] at h
        rcases List.mem_cons.mp h with h | h
        · exact Or.inr (h ▸ List.mem_cons_self _ _)
        · rcases ih h with h' | h'
          · exact Or.inl h'
          · exact Or.inr (List.mem_cons_of_mem _ h')

theorem mem_of_mem_getLast' {α : Type} {l : List α} {x : α}
    (h : x ∈ l.getLast?) : x ∈ l := by
  rcases List.mem_getLast?_eq_getLast h with ⟨hne, rfl⟩
  exact List.getLast_mem hne

/-- A simultaneous induction principle for the nested tree type, its element
lists and its dictionary entry lists. -/
theorem tree_induction (P : PDFTree → Prop) (Q : List PDFTree → Prop)
    (R : List (String × PDFTree) → Prop)
    (hnull : P .null) (hboolean : ∀ b, P (.boolean b))
    (hinteger : ∀ i, P (.integer i)) (hreal : ∀ bits, P (.real bits))
    (hname : ∀ s, P (.name s)) (hstring : ∀ s fmt, P (.string s fmt))
    (hstream : ∀ s, P (.stream s)) (hreference : ∀ oid, P (.reference oid))
    (harray : ∀ v, Q v → P (.array v))
    (hdictionary : ∀ e, R e → P (.dictionary e))
    (hsubTree : ∀ t, P t → P (.subTree t))
    (hqnil : Q []) (hqcons : ∀ t ts, P t → Q ts → Q (t :: ts))
    (hrnil : R []) (hrcons : ∀ s t rest, P t → R rest → R ((s, t) :: rest)) :
    (∀ t, P t) ∧ (∀ l, Q l) ∧ (∀ e, R e) := by
  have key : ∀ n : Nat, (∀ t, psize t ≤ n → P t) ∧ (∀ l, plsize l ≤ n → Q l) ∧
      (∀ e, pdsize e ≤ n → R e) := by
    intro n
    induction n using Nat.strong_induction_on with
    | _ n ih =>
        refine ⟨?_, ?_, ?_⟩
        · intro t hle
          cases t with
          | null => exact hnull
          | boolean b => exact hboolean b
          | integer i => exact hinteger i
          | real bits => exact hreal bits
          | name s => exact hname s
          | string s fmt => exact hstring s fmt
          | stream s => exact hstream s
          | reference oid => exact hreference oid
          | array v =>
              simp only [psize] at hle
              exact harray v ((ih (plsize v) (by omega)).2.1 v le_rfl)
          | dictionary e =>
              simp only [psize] at hle
              exact hdictionary e ((ih (pdsize e) (by omega)).2.2 e le_rfl)
          | subTree t =>
              simp only [psize] at hle
              exact hsubTree t ((ih (psize t) (by omega)).1 t le_rfl)
        · intro l hle
          cases l with
          | nil => exact hqnil
          | cons t ts =>
              simp only [plsize] at hle
              exact hqcons t ts ((ih (psize t) (by omega)).1 t le_rfl)
                ((ih (plsize ts) (by omega)).2.1 ts le_rfl)
        · intro e hle
          cases e with
          | nil => exact hrnil
          | cons p rest =>
              obtain ⟨s, t⟩ := p
              simp only [pdsize] at hle
              exact hrcons s t rest ((ih (psize t) (by omega)).1 t le_rfl)
                ((ih (pdsize rest) (by omega)).2.2 rest le_rfl)
  exact ⟨fun t => (key (psize t)).1 t le_rfl, fun l => (key (plsize l)).2.1 l le_rfl,
    fun e => (key (pdsize e)).2.2 e le_rfl⟩

theorem fold_invariants :
    (∀ t, FoldInvariant t) ∧ (∀ l, FoldListInvariant l) ∧
      (∀ e, FoldDictInvariant e) := by
  refine tree_induction FoldInvariant FoldListInvariant FoldDictInvariant
    ?_ ?_ ?_ ?_ ?_ ?_ ?_ ?_ ?_ ?_ ?_ ?_ ?_ ?_ ?_
  · intro d
    exact ⟨le_rfl, rfl, fun id h => rfl, fun hv => hv, by simp [foldLog], by simp [foldLog]⟩
  · intro b d
    exact ⟨le_rfl, rfl, fun id h => rfl, fun hv => hv, by simp [foldLog], by simp [foldLog]⟩
  · intro i d
    exact ⟨le_rfl, rfl, fun id h => rfl, fun hv => hv, by simp [foldLog], by simp [foldLog]⟩
  · intro bits d
    exact ⟨le_rfl, rfl, fun id h => rfl, fun hv => hv, by simp [foldLog], by simp [foldLog]⟩
  · intro s d
    exact ⟨le_rfl, rfl, fun id h => rfl, fun hv => hv, by simp [foldLog], by simp [foldLog]⟩
  · intro s fmt d
    exact ⟨le_rfl, rfl, fun id h => rfl, fun hv => hv, by simp [foldLog], by simp [foldLog]⟩
  · intro s d
    exact ⟨le_rfl, rfl, fun id h => rfl, fun hv => hv, by simp [foldLog], by simp [foldLog]⟩
  · intro oid d
    exact ⟨le_rfl, rfl, fun id h => rfl, fun hv => hv, by simp [foldLog], by simp [foldLog]⟩
  · intro v hQ d
    obtain ⟨h1, h2, h3, h4, h5, h6⟩ := hQ d
    exact ⟨by simpa using h1, by simpa using h2,
      by simp only [fold_array]; exact h3,
      by simp only [fold_array]; exact h4,
      by simp only [fold_array, foldLog_array]; exact h5,
      by simp only [foldLog_array]; exact h6⟩
  · intro e hR d
    obtain ⟨h1, h2, h3, h4, h5, h6⟩ := hR d
    exact ⟨by simpa using h1, by simpa using h2,
      by simp only [fold_dictionary]; exact h3,
      by simp only [fold_dictionary]; exact h4,
      by simp only [fold_dictionary, foldLog_dictionary]; exact h5,
      by simp only [foldLog_dictionary]; exact h6⟩
  · intro t hP d
    obtain ⟨h1, h2, h3, h4, h5, h6⟩ := hP d
    have hmax : (fold (.subTree t) d).2.maxId = (fold t d).2.maxId + 1 := rfl
    have htrail : (fold (.subTree t) d).2.trailer = (fold t d).2.trailer := rfl
    have hobjs : (fold (.subTree t) d).2.objects =
        objInsert ((fold t d).2.maxId + 1, 0) (fold t d).1 (fold t d).2.objects := rfl
    refine ⟨?_, ?_, ?_, ?_, ?_, ?_⟩
    · rw [hmax]; omega
    · rw [htrail]; exact h2
    · intro id hid
      rw [hobjs]
      have hne : id ≠ ((fold t d).2.maxId + 1, 0) := by
        intro hc
        have : id.1 = (fold t d).2.maxId + 1 := by rw [hc]
        omega
      rw [lookupObj_objInsert_ne _ _ hne]
      exact h3 id hid
    · intro hv
      have hv2 := h4 hv
      intro q hq
      rw [hobjs] at hq
      rw [hmax]
      rcases mem_objInsert hq with hq | hq
      · rw [hq]
      · have := hv2 q hq
        omega
    · intro a ha
      rw [foldLog_subTree] at ha
      rw [hmax]
      rcases List.mem_append.mp ha with ha | ha
      · have := h5 a ha
        omega
      · have haa : a = ((fold t d).2.maxId + 1, 0) := by simpa using ha
        rw [haa]
        constructor
        · simp; omega
        · simp
    · rw [foldLog_subTree]
      refine List.chain'_append.mpr ⟨h6, List.chain'_singleton _, ?_⟩
      intro x hx y hy
      have hxm := h5 x (mem_of_mem_getLast' hx)
      have hyy : y = ((fold t d).2.maxId + 1, 0) := by
        have := hy
        simp at this
        exact this.symm
      rw [hyy]
      simp
      omega
  · intro d
    exact ⟨le_rfl, rfl, fun id h => rfl, fun hv => hv, by simp, by simp⟩
  · intro t ts hP hQ d
    obtain ⟨p1, p2, p3, p4, p5, p6⟩ := hP d
    obtain ⟨q1, q2, q3, q4, q5, q6⟩ := hQ ((fold t d).2)
    have hmax : (foldList (t :: ts) d).2.maxId =
        (foldList ts (fold t d).2).2.maxId := rfl
    refine ⟨?_, ?_, ?_, ?_, ?_, ?_⟩
    · rw [hmax]; omega
    · exact q2.trans p2
    · intro id hid
      have hh : lookupObj (foldList (t :: ts) d).2.objects id =
          lookupObj (foldList ts (fold t d).2).2.objects id := rfl
      rw [hh, q3 id (hid.trans p1)]
      exact p3 id hid
    · intro hv
      exact q4 (p4 hv)
    · intro a ha
      rw [foldListLog_cons] at ha
      rw [hmax]
      rcases List.mem_append.mp ha with ha | ha
      · have := p5 a ha
        omega
      · have := q5 a ha
        omega
    · rw [foldListLog_cons]
      refine List.chain'_append.mpr ⟨p6, q6, ?_⟩
      intro x hx y hy
      have hxm := p5 x (mem_of_mem_getLast' hx)
      have hym := q5 y (List.mem_of_mem_head? hy)
      omega
  · intro d
    exact ⟨le_rfl, rfl, fun id h => rfl, fun hv => hv, by simp, by simp⟩
  · intro s t rest hP hR d
    obtain ⟨p1, p2, p3, p4, p5, p6⟩ := hP d
    obtain ⟨q1, q2, q3, q4, q5, q6⟩ := hR ((fold t d).2)
    have hmax : (foldDict ((s, t) :: rest) d).2.maxId =
        (foldDict rest (fold t d).2).2.maxId := rfl
    refine ⟨?_, ?_, ?_, ?_, ?_, ?_⟩
    · rw [hmax]; omega
    · exact q2.trans p2
    · intro id hid
      have hh : lookupObj (foldDict ((s, t) :: rest) d).2.objects id =
          lookupObj (foldDict rest (fold t d).2).2.objects id := rfl
      rw [hh, q3 id (hid.trans p1)]
      exact p3 id hid
    · intro hv
      exact q4 (p4 hv)
    · intro a ha
      rw [foldDictLog_cons] at ha
      rw [hmax]
      rcases List.mem_append.mp ha with ha | ha
      · have := p5 a ha
        omega
      · have := q5 a ha
        omega
    · rw [foldDictLog_cons]
      refine List.chain'_append.mpr ⟨p6, q6, ?_⟩
      intro x hx y hy
      have hxm := p5 x (mem_of_mem_getLast' hx)
      have hym := q5 y (List.mem_of_mem_head? hy)
      omega

/-! ## Claim C4 -/

/-- C4: materializing an `Embedded` (`subTree`) node allocates a fresh id in
the destination that does not collide with any id already present (under the
store invariant), ids grow monotonically (`max_id`-based allocation), the
materialized object is inserted under the fresh id, and a `Reference` to it
is emitted to the parent; the ids allocated across one `fold` form a strictly
increasing — hence pairwise distinct — sequence of ids all fresh for the
initial destination. -/
theorem c4_materializer_fresh_ids (t : PDFTree) (d : Document) (h : DocInv d) :
    (link_reference t d).1 ∉ docKeys d ∧
      d.maxId < (link_reference t d).1.1 ∧
      (link_reference t d).1.1 = (link_reference t d).2.maxId ∧
      lookupObj (link_reference t d).2.objects (link_reference t d).1 =
        some (fold t d).1 ∧
      (fold (.subTree t) d).1 = .reference (link_reference t d).1 ∧
      DocInv (link_reference t d).2 ∧
      (∀ a ∈ foldLog (.subTree t) d, a ∉ docKeys d ∧ d.maxId < a.1) ∧
      List.Chain' (fun a b : ObjectId => a.1 < b.1) (foldLog (.subTree t) d) ∧
      (foldLog (.subTree t) d).Nodup := by
  obtain ⟨h1, h2, h3, h4, h5, h6⟩ := (fold_invariants).1 t d
  obtain ⟨g1, g2, g3, g4, g5, g6⟩ := (fold_invariants).1 (.subTree t) d
  have hfst : (link_reference t d).1 = ((fold t d).2.maxId + 1, 0) := rfl
  have hmax : (link_reference t d).2.maxId = (fold t d).2.maxId + 1 := rfl
  have hobjs : (link_reference t d).2.objects =
      objInsert ((fold t d).2.maxId + 1, 0) (fold t d).1 (fold t d).2.objects := rfl
  have hfresh : ∀ a : ObjectId, d.maxId < a.1 → a ∉ docKeys d := by
    intro a hlt hmem
    rcases List.mem_map.mp hmem with ⟨p, hp, hpf⟩
    have := h p hp
    rw [hpf] at this
    omega
  refine ⟨?_, ?_, ?_, ?_, rfl, ?_, ?_, g6, ?_⟩
  · refine hfresh _ ?_
    rw [hfst]
    omega
  · rw [hfst]
    omega
  · rw [hfst, hmax]
  · rw [hobjs, hfst]
    exact lookupObj_objInsert_self _ _ _
  · intro q hq
    rw [hobjs] at hq
    rw [hmax]
    rcases mem_objInsert hq with hq | hq
    · rw [hq]
    · have := h4 h q hq
      omega
  · intro a ha
    have := g5 a ha
    exact ⟨hfresh a this.1, this.1⟩
  · haveI : IsTrans ObjectId (fun a b : ObjectId => a.1 < b.1) :=
      ⟨fun a b c hab hbc => by omega⟩
    have hpw : (foldLog (.subTree t) d).Pairwise (fun a b : ObjectId => a.1 < b.1) :=
      List.chain'_iff_pairwise.mp g6
    exact hpw.imp (fun hlt he => by rw [he] at hlt; omega)

/-- Witness for C4 on a tree with two embedded subtrees materialized into a
fresh destination. -/
theorem c4_witness :
    DocInv Document.new ∧
      ((link_reference exampleTree Document.new).1 ∉ docKeys Document.new ∧
        Document.new.maxId < (link_reference exampleTree Document.new).1.1 ∧
        (link_reference exampleTree Document.new).1.1 =
          (link_reference exampleTree Document.new).2.maxId ∧
        lookupObj (link_reference exampleTree Document.new).2.objects
            (link_reference exampleTree Document.new).1 =
          some (fold exampleTree Document.new).1 ∧
        (fold (.subTree exampleTree) Document.new).1 =
          .reference (link_reference exampleTree Document.new).1 ∧
        DocInv (link_reference exampleTree Document.new).2 ∧
        (∀ a ∈ foldLog (.subTree exampleTree) Document.new,
          a ∉ docKeys Document.new ∧ Document.new.maxId < a.1) ∧
        List.Chain' (fun a b : ObjectId => a.1 < b.1)
          (foldLog (.subTree exampleTree) Document.new) ∧
        (foldLog (.subTree exampleTree) Document.new).Nodup) :=
  ⟨by decide, c4_materializer_fresh_ids exampleTree Document.new (by decide)⟩

/-! ## Source surgery lemmas (for C7's Parent-independence) -/

theorem getObject_srcSet_ne (doc : SrcDoc) (oid : ObjectId) (o : Object)
    {x : ObjectId} (h : x ≠ oid) :
    getObject (srcSet doc oid o) x = getObject doc x := by
  induction doc with
  | nil => rfl
  | cons p rest ih =>
      obtain ⟨k, v⟩ := p
      by_cases hk : k = oid
      · subst hk
        simp only [srcSet, if_pos rfl, getObject]
        rw [if_neg (fun hc => h hc.symm), if_neg (fun hc => h hc.symm)]
      · simp only [srcSet, if_neg hk, getObject]
        by_cases hk' : k = x
        · rw [if_pos hk', if_pos hk']
        · rw [if_neg hk', if_neg hk']
          exact ih

theorem getObject_srcSet_self (doc : SrcDoc) (oid : ObjectId) (o : Object)
    (h : (getObject doc oid).isSome) :
    getObject (srcSet doc oid o) oid = some o := by
  induction doc with
  | nil => simp [getObject] at h
  | cons p rest ih =>
      obtain ⟨k, v⟩ := p
      by_cases hk : k = oid
      · subst hk
        simp [srcSet, getObject]
      · simp only [srcSet, if_neg hk, getObject, if_neg hk]
        simp only [getObject, if_neg hk] at h
        exact ih h

theorem map_fst_srcSet (doc : SrcDoc) (oid : ObjectId) (o : Object) :
    (srcSet doc oid o).map Prod.fst = doc.map Prod.fst := by
  induction doc with
  | nil => rfl
  | cons p rest ih =>
      obtain ⟨k, v⟩ := p
      by_cases hk : k = oid
      · simp [srcSet, hk]
      · simp [srcSet, hk, ih]

theorem unseenCount_srcSet (doc : SrcDoc) (oid : ObjectId) (o : Object)
    (seen : SeenSet) :
    unseenCount (srcSet doc oid o) seen = unseenCount doc seen := by
  unfold unseenCount docIds
  rw [map_fst_srcSet]

/-- If two stores agree at every id other than `oid`, and `oid` is already in
the seen set, then the walk cannot observe the difference: an id is only ever
looked up right after being found absent from the (monotone) seen set. -/
theorem unfold_update_irrelevant (doc doc' : SrcDoc) (oid : ObjectId)
    (hdocs : ∀ x : ObjectId, x ≠ oid → getObject doc' x = getObject doc x) :
    ∀ f : Nat,
      (∀ seen o, oid ∈ seen → unfold doc' f seen o = unfold doc f seen o) ∧
        (∀ seen l, oid ∈ seen → unfoldList doc' f seen l = unfoldList doc f seen l) ∧
        (∀ seen e, oid ∈ seen → unfoldDict doc' f seen e = unfoldDict doc f seen e) := by
  intro f
  induction f with
  | zero => exact ⟨fun seen o h => rfl, fun seen l h => rfl, fun seen e h => rfl⟩
  | succ f ih =>
      obtain ⟨iho, ihl, ihd⟩ := ih
      refine ⟨?_, ?_, ?_⟩
      · intro seen o hm
        cases o with
        | null => rfl
        | boolean b => rfl
        | integer i => rfl
        | real bits => rfl
        | name s => rfl
        | string s fmt => rfl
        | stream s => rfl
        | array v =>
            rw [unfold_array, unfold_array, ihl seen v hm]
        | dictionary e =>
            rw [unfold_dictionary, unfold_dictionary, ihd seen e hm]
        | reference r =>
            rw [unfold_reference, unfold_reference]
            by_cases hr : r ∈ seen
            · rw [if_pos hr, if_pos hr]
            · rw [if_neg hr, if_neg hr]
              have hne : r ≠ oid := fun hc => hr (hc ▸ hm)
              rw [hdocs r hne]
              rcases hg : getObject doc r with - | xv
              · rfl
              · show (unfold doc' f (r :: seen) xv).map
                    (fun p => (PDFTree.subTree p.1, p.2)) =
                  (unfold doc f (r :: seen) xv).map
                    (fun p => (PDFTree.subTree p.1, p.2))
                rw [iho (r :: seen) xv (List.mem_cons_of_mem _ hm)]
      · intro seen l hm
        cases l with
        | nil => rfl
        | cons y ys =>
            rw [unfoldList_cons_bind, unfoldList_cons_bind, iho seen y hm]
            rcases hx : unfold doc f seen y with - | ⟨t1, s1⟩
            · rfl
            · simp only [Option.some_bind]
              have hm1 : oid ∈ s1 := (unfold_seen_subset doc f).1 _ _ _ _ hx oid hm
              rw [ihl s1 ys hm1]
      · intro seen e hm
        cases e with
        | nil => rfl
        | cons p rest =>
            obtain ⟨s, o⟩ := p
            rw [unfoldDict_cons_bind, unfoldDict_cons_bind]
            by_cases hp : s = "Parent"
            · rw [if_pos hp, if_pos hp]
              exact ihd seen rest hm
            · rw [if_neg hp, if_neg hp, iho seen o hm]
              rcases hx : unfold doc f seen o with - | ⟨t1, s1⟩
              · rfl
              · simp only [Option.some_bind]
                have hm1 : oid ∈ s1 := (unfold_seen_subset doc f).1 _ _ _ _ hx oid hm
                rw [ihd s1 rest hm1]

/-- Replacing the values bound to `"Parent"` keys in a dictionary changes
nothing about its walk: those entries are skipped without being looked at. -/
theorem unfoldDict_setParentValue (doc : SrcDoc) (v : Object) :
    ∀ (f : Nat) (seen : SeenSet) (e : List (String × Object)),
      unfoldDict doc f seen (setParentValue v e) = unfoldDict doc f seen e := by
  intro f
  induction f with
  | zero => intro seen e; rfl
  | succ f ih =>
      intro seen e
      cases e with
      | nil => rfl
      | cons p rest =>
          obtain ⟨s, o⟩ := p
          show unfoldDict doc (f + 1) seen
              ((s, if s = "Parent" then v else o) :: setParentValue v rest) = _
          rw [unfoldDict_cons_bind, unfoldDict_cons_bind]
          by_cases hp : s = "Parent"
          · rw [if_pos hp, if_pos hp]
            exact ih seen rest
          · rw [if_neg hp, if_neg hp, if_neg hp]
            rcases hx : unfold doc f seen o with - | ⟨t1, s1⟩
            · rfl
            · simp only [Option.some_bind]
              rw [ih s1 rest]

/-- Unfolding `PDFTree::new` on a present root. -/
theorem pdftreeNew_eq (doc : SrcDoc) (oid : ObjectId) (o : Object)
    (hg : getObject doc oid = some o) :
    pdftreeNew oid doc =
      (unfold doc (fuelBound doc [oid] o) [oid] o).map Prod.fst := by
  unfold pdftreeNew
  rw [hg]

/-- `PDFTree::new` always succeeds on a present root (the builder's only
error is a missing root). -/
theorem pdftreeNew_isSome (doc : SrcDoc) (oid : ObjectId) (o : Object)
    (hg : getObject doc oid = some o) : (pdftreeNew oid doc).isSome := by
  rw [pdftreeNew_eq doc oid o hg]
  have hb : osize o + unseenCount doc [oid] * (1 + maxObjSize doc) <
      fuelBound doc [oid] o := by
    unfold fuelBound
    linarith
  have hs := (unfold_isSome_of_bound doc _).1 [oid] o hb
  obtain ⟨r, hr⟩ := Option.isSome_iff_exists.mp hs
  rw [hr]
  rfl

/-- The tree built for a page is independent of the value its source
dictionary binds to `"Parent"` (the walk never reads it, and, the root being
seen from the start, never re-fetches the root object through a reference). -/
theorem pdftreeNew_parent_value_irrelevant (doc : SrcDoc) (oid : ObjectId)
    (pd0 : List (String × Object)) (v : Object)
    (hroot : getObject doc oid = some (.dictionary pd0)) :
    pdftreeNew oid (srcSet doc oid (.dictionary (setParentValue v pd0))) =
      pdftreeNew oid doc := by
  have hg' : getObject (srcSet doc oid (.dictionary (setParentValue v pd0))) oid =
      some (.dictionary (setParentValue v pd0)) :=
    getObject_srcSet_self doc oid _ (by rw [hroot]; rfl)
  have hdocs : ∀ x : ObjectId, x ≠ oid →
      getObject (srcSet doc oid (.dictionary (setParentValue v pd0))) x =
        getObject doc x := fun x hx => getObject_srcSet_ne doc oid _ hx
  rw [pdftreeNew_eq _ _ _ hg', pdftreeNew_eq _ _ _ hroot]
  set doc' := srcSet doc oid (.dictionary (setParentValue v pd0)) with hdoc'
  set o' : Object := .dictionary (setParentValue v pd0) with ho'
  set F' := fuelBound doc' [oid] o' with hF'
  set F := fuelBound doc [oid] (.dictionary pd0) with hF
  have step1 : unfold doc' F' [oid] o' = unfold doc F' [oid] o' :=
    (unfold_update_irrelevant doc doc' oid hdocs F').1 [oid] o'
      (List.mem_cons_self _ _)
  have step2 : unfold doc F' [oid] o' = unfold doc F' [oid] (.dictionary pd0) := by
    cases hcF : F' with
    | zero => rfl
    | succ g =>
        rw [ho', unfold_dictionary, unfold_dictionary,
          unfoldDict_setParentValue doc v g [oid] pd0]
  have hs' : (unfold doc' F' [oid] o').isSome := by
    have hb : osize o' + unseenCount doc' [oid] * (1 + maxObjSize doc') < F' := by
      rw [hF']
      unfold fuelBound
      linarith
    exact (unfold_isSome_of_bound doc' F').1 [oid] o' hb
  have hs : (unfold doc F [oid] (.dictionary pd0)).isSome := by
    have hb : osize (.dictionary pd0) +
        unseenCount doc [oid] * (1 + maxObjSize doc) < F := by
      rw [hF]
      unfold fuelBound
      linarith
    exact (unfold_isSome_of_bound doc F).1 [oid] (.dictionary pd0) hb
  rw [step1, step2] at hs'
  obtain ⟨r', hr'⟩ := Option.isSome_iff_exists.mp hs'
  obtain ⟨r, hr⟩ := Option.isSome_iff_exists.mp hs
  have hagree : r' = r := unfold_agree doc hr' hr
  rw [step1, step2, hr', hr, hagree]

/-! ## Claim C7: helper lemmas -/

theorem getDictionary_some {doc : SrcDoc} {oid : ObjectId}
    {pd : List (String × Object)} (h : getDictionary doc oid = some pd) :
    getObject doc oid = some (.dictionary pd) := by
  unfold getDictionary at h
  rcases hg : getObject doc oid with - | o
  · rw [hg] at h
    simp at h
  · rw [hg] at h
    cases o <;> simp_all

theorem lhmGet_dictSet_self (l : List (String × Object)) (k : String) (v : Object) :
    lhmGet (dictSet k v l) k = some v := by
  induction l with
  | nil => simp [dictSet, lhmGet]
  | cons p rest ih =>
      obtain ⟨k', v'⟩ := p
      by_cases hk : k' = k
      · simp [dictSet, lhmGet, hk]
      · simp only [dictSet, if_neg hk, lhmGet, if_neg hk]
        exact ih

theorem lhmGet_setParentValue_ne (l : List (String × Object)) (v : Object)
    {k : String} (hk : k ≠ "Parent") :
    lhmGet (setParentValue v l) k = lhmGet l k := by
  induction l with
  | nil => rfl
  | cons p rest ih =>
      obtain ⟨k', v'⟩ := p
      by_cases hk' : k' = k
      · subst hk'
        simp only [setParentValue, lhmGet, if_pos rfl]
        rw [if_neg hk]
        simp [lhmGet]
      · simp only [setParentValue, lhmGet, if_neg hk']
        exact ih

theorem setPageParent_of_dict (d : Document) (pageId pagesId : ObjectId)
    {pd : List (String × Object)}
    (h : lookupObj d.objects pageId = some (.dictionary pd)) :
    setPageParent pageId pagesId d =
      { d with
        objects :=
          objInsert pageId
            (.dictionary (dictSet "Parent" (.reference pagesId) pd)) d.objects } := by
  unfold setPageParent
  rw [h]

theorem setPageParent_maxId (a b : ObjectId) (d : Document) :
    (setPageParent a b d).maxId = d.maxId := by
  unfold setPageParent
  split <;> rfl

theorem setPageParent_trailer (a b : ObjectId) (d : Document) :
    (setPageParent a b d).trailer = d.trailer := by
  unfold setPageParent
  split <;> rfl

/-! ## Claim C7 -/

/-- C7: for every successfully extracted page, the materialized page
dictionary's `"Parent"` key refers to the newly created Pages node of the
destination (the node `(Type: Pages, Kids: [page_id], Count: 1, MediaBox)`
stored at the reserved id `(1, 0)`), and it never derives from the source
document's own page-tree root: replacing the source page dictionary's
`"Parent"` value by anything whatsoever yields the identical output
document. -/
theorem c7_parent_is_new_pages_node (doc : SrcDoc) (stem : String)
    (width no : Nat) (oid : ObjectId) (out : BurstPageOut)
    (h : burstPage doc stem width no oid = some out) :
    out.pagesId = (1, 0) ∧
      out.pageId ≠ out.pagesId ∧
      (∃ pd, lookupObj out.newDoc.objects out.pageId = some (.dictionary pd) ∧
        lhmGet pd "Parent" = some (.reference out.pagesId)) ∧
      (∃ mb pd0, getObject doc oid = some (.dictionary pd0) ∧
        lhmGet pd0 "MediaBox" = some mb ∧
        lookupObj out.newDoc.objects out.pagesId =
          some (.dictionary
            [("Type", .name "Pages"),
             ("Kids", .array [.reference out.pageId]),
             ("Count", .integer 1),
             ("MediaBox", mb)]) ∧
        ∀ v : Object,
          burstPage (srcSet doc oid (.dictionary (setParentValue v pd0)))
            stem width no oid = some out) := by
  simp only [burstPage] at h
  rcases Option.bind_eq_some.mp h with ⟨oldPageD, h1, h⟩
  rcases Option.bind_eq_some.mp h with ⟨mediaBox, h2, h⟩
  rcases Option.map_eq_some'.mp h with ⟨newPage, h3, he⟩
  have hroot : getObject doc oid = some (.dictionary oldPageD) := getDictionary_some h1
  have h3' := h3
  rw [pdftreeNew_eq doc oid _ hroot] at h3'
  obtain ⟨⟨t, s'⟩, hu, ht⟩ := Option.map_eq_some'.mp h3'
  unfold fuelBound at hu
  rw [unfold_dictionary] at hu
  obtain ⟨⟨res, s2⟩, hdd, hee⟩ := Option.map_eq_some'.mp hu
  have hnp : newPage = .dictionary res := by
    have hx1 : PDFTree.dictionary res = t := congrArg Prod.fst hee
    have hx2 : t = newPage := ht
    rw [← hx2, ← hx1]
  subst hnp
  have hm1 : (1 : Nat) ≤ (fold (PDFTree.dictionary res) ⟨1, [], []⟩).2.maxId := by
    have := ((fold_invariants).1 (PDFTree.dictionary res) ⟨1, [], []⟩).1
    simpa using this
  have hpg : out.pagesId = (1, 0) := by rw [← he]; rfl
  have hpi : out.pageId =
      ((fold (PDFTree.dictionary res) ⟨1, [], []⟩).2.maxId + 1, 0) := by
    rw [← he]; rfl
  have hP1 : (fold (PDFTree.dictionary res) (⟨1, [], []⟩ : Document)).1 =
      .dictionary (foldDict res (⟨1, [], []⟩ : Document)).1 := by
    rw [fold_dictionary]
  have hpid_ne : ((fold (PDFTree.dictionary res) (⟨1, [], []⟩ : Document)).2.maxId + 1,
      (0 : Nat)) ≠ ((1 : Nat), (0 : Nat)) := by
    intro hc
    have h2c : (fold (PDFTree.dictionary res) (⟨1, [], []⟩ : Document)).2.maxId + 1 = 1 :=
      congrArg Prod.fst hc
    omega
  -- the materialized page object before the Parent re-binding
  have l1 : lookupObj
      (objInsert ((fold (PDFTree.dictionary res) (⟨1, [], []⟩ : Document)).2.maxId + 1, 0)
        (fold (PDFTree.dictionary res) (⟨1, [], []⟩ : Document)).1
        (fold (PDFTree.dictionary res) (⟨1, [], []⟩ : Document)).2.objects)
      ((fold (PDFTree.dictionary res) (⟨1, [], []⟩ : Document)).2.maxId + 1, 0) =
      some (.dictionary (foldDict res (⟨1, [], []⟩ : Document)).1) := by
    rw [lookupObj_objInsert_self, hP1]
  have l2 : lookupObj
      (objInsert (1, 0)
        (.dictionary
          [("Type", .name "Pages"),
           ("Kids", .array
             [.reference
               ((fold (PDFTree.dictionary res) (⟨1, [], []⟩ : Document)).2.maxId + 1, 0)]),
           ("Count", .integer 1),
           ("MediaBox", mediaBox)])
        (objInsert ((fold (PDFTree.dictionary res) (⟨1, [], []⟩ : Document)).2.maxId + 1, 0)
          (fold (PDFTree.dictionary res) (⟨1, [], []⟩ : Document)).1
          (fold (PDFTree.dictionary res) (⟨1, [], []⟩ : Document)).2.objects))
      ((fold (PDFTree.dictionary res) (⟨1, [], []⟩ : Document)).2.maxId + 1, 0) =
      some (.dictionary (foldDict res (⟨1, [], []⟩ : Document)).1) := by
    rw [lookupObj_objInsert_ne _ _ hpid_ne]
    exact l1
  refine ⟨hpg, ?_, ?_, ?_⟩
  · rw [hpg, hpi]
    exact hpid_ne
  · refine ⟨dictSet "Parent" (.reference (1, 0)) (foldDict res (⟨1, [], []⟩ : Document)).1, ?_, ?_⟩
    · have hobj : out.newDoc.objects =
          objInsert ((setPageParent ((fold (PDFTree.dictionary res) (⟨1, [], []⟩ : Document)).2.maxId + 1, 0) (1, 0) (⟨(fold (PDFTree.dictionary res) (⟨1, [], []⟩ : Document)).2.maxId + 1, objInsert (1, 0) (.dictionary [("Type", .name "Pages"),
           ("Kids", .array [.reference ((fold (PDFTree.dictionary res) (⟨1, [], []⟩ : Document)).2.maxId + 1, 0)]),
           ("Count", .integer 1),
           ("MediaBox", mediaBox)]) (objInsert ((fold (PDFTree.dictionary res) (⟨1, [], []⟩ : Document)).2.maxId + 1, 0) (fold (PDFTree.dictionary res) (⟨1, [], []⟩ : Document)).1 (fold (PDFTree.dictionary res) (⟨1, [], []⟩ : Document)).2.objects), (fold (PDFTree.dictionary res) (⟨1, [], []⟩ : Document)).2.trailer⟩ : Document)).maxId + 1, 0)
            (Object.dictionary [("Type", Object.name "Catalog"), ("Pages", Object.reference (1, 0))])
            (setPageParent ((fold (PDFTree.dictionary res) (⟨1, [], []⟩ : Document)).2.maxId + 1, 0) (1, 0) (⟨(fold (PDFTree.dictionary res) (⟨1, [], []⟩ : Document)).2.maxId + 1, objInsert (1, 0) (.dictionary [("Type", .name "Pages"),
           ("Kids", .array [.reference ((fold (PDFTree.dictionary res) (⟨1, [], []⟩ : Document)).2.maxId + 1, 0)]),
           ("Count", .integer 1),
           ("MediaBox", mediaBox)]) (objInsert ((fold (PDFTree.dictionary res) (⟨1, [], []⟩ : Document)).2.maxId + 1, 0) (fold (PDFTree.dictionary res) (⟨1, [], []⟩ : Document)).1 (fold (PDFTree.dictionary res) (⟨1, [], []⟩ : Document)).2.objects), (fold (PDFTree.dictionary res) (⟨1, [], []⟩ : Document)).2.trailer⟩ : Document)).objects := by
        rw [← he]; rfl
      have hset : setPageParent ((fold (PDFTree.dictionary res) (⟨1, [], []⟩ : Document)).2.maxId + 1, 0) (1, 0) (⟨(fold (PDFTree.dictionary res) (⟨1, [], []⟩ : Document)).2.maxId + 1, objInsert (1, 0) (.dictionary [("Type", .name "Pages"),
           ("Kids", .array [.reference ((fold (PDFTree.dictionary res) (⟨1, [], []⟩ : Document)).2.maxId + 1, 0)]),
           ("Count", .integer 1),
           ("MediaBox", mediaBox)]) (objInsert ((fold (PDFTree.dictionary res) (⟨1, [], []⟩ : Document)).2.maxId + 1, 0) (fold (PDFTree.dictionary res) (⟨1, [], []⟩ : Document)).1 (fold (PDFTree.dictionary res) (⟨1, [], []⟩ : Document)).2.objects), (fold (PDFTree.dictionary res) (⟨1, [], []⟩ : Document)).2.trailer⟩ : Document) = ({ (⟨(fold (PDFTree.dictionary res) (⟨1, [], []⟩ : Document)).2.maxId + 1, objInsert (1, 0) (.dictionary [("Type", .name "Pages"),
           ("Kids", .array [.reference ((fold (PDFTree.dictionary res) (⟨1, [], []⟩ : Document)).2.maxId + 1, 0)]),
           ("Count", .integer 1),
           ("MediaBox", mediaBox)]) (objInsert ((fold (PDFTree.dictionary res) (⟨1, [], []⟩ : Document)).2.maxId + 1, 0) (fold (PDFTree.dictionary res) (⟨1, [], []⟩ : Document)).1 (fold (PDFTree.dictionary res) (⟨1, [], []⟩ : Document)).2.objects), (fold (PDFTree.dictionary res) (⟨1, [], []⟩ : Document)).2.trailer⟩ : Document) with objects := objInsert ((fold (PDFTree.dictionary res) (⟨1, [], []⟩ : Document)).2.maxId + 1, 0) (.dictionary (dictSet "Parent" (.reference (1, 0)) (foldDict res (⟨1, [], []⟩ : Document)).1)) (⟨(fold (PDFTree.dictionary res) (⟨1, [], []⟩ : Document)).2.maxId + 1, objInsert (1, 0) (.dictionary [("Type", .name "Pages"),
           ("Kids", .array [.reference ((fold (PDFTree.dictionary res) (⟨1, [], []⟩ : Document)).2.maxId + 1, 0)]),
           ("Count", .integer 1),
           ("MediaBox", mediaBox)]) (objInsert ((fold (PDFTree.dictionary res) (⟨1, [], []⟩ : Document)).2.maxId + 1, 0) (fold (PDFTree.dictionary res) (⟨1, [], []⟩ : Document)).1 (fold (PDFTree.dictionary res) (⟨1, [], []⟩ : Document)).2.objects), (fold (PDFTree.dictionary res) (⟨1, [], []⟩ : Document)).2.trailer⟩ : Document).objects } : Document) :=
        setPageParent_of_dict (⟨(fold (PDFTree.dictionary res) (⟨1, [], []⟩ : Document)).2.maxId + 1, objInsert (1, 0) (.dictionary [("Type", .name "Pages"),
           ("Kids", .array [.reference ((fold (PDFTree.dictionary res) (⟨1, [], []⟩ : Document)).2.maxId + 1, 0)]),
           ("Count", .integer 1),
           ("MediaBox", mediaBox)]) (objInsert ((fold (PDFTree.dictionary res) (⟨1, [], []⟩ : Document)).2.maxId + 1, 0) (fold (PDFTree.dictionary res) (⟨1, [], []⟩ : Document)).1 (fold (PDFTree.dictionary res) (⟨1, [], []⟩ : Document)).2.objects), (fold (PDFTree.dictionary res) (⟨1, [], []⟩ : Document)).2.trailer⟩ : Document) ((fold (PDFTree.dictionary res) (⟨1, [], []⟩ : Document)).2.maxId + 1, 0) (1, 0) l2
      rw [hset] at hobj
      have hcid_ne : (((fold (PDFTree.dictionary res) (⟨1, [], []⟩ : Document)).2.maxId + 1) + 1, (0 : Nat)) ≠ ((fold (PDFTree.dictionary res) (⟨1, [], []⟩ : Document)).2.maxId + 1, 0) := by
        intro hc
        have h2c : ((fold (PDFTree.dictionary res) (⟨1, [], []⟩ : Document)).2.maxId + 1) + 1 = (fold (PDFTree.dictionary res) (⟨1, [], []⟩ : Document)).2.maxId + 1 :=
          congrArg Prod.fst hc
        omega
      rw [hpi, hobj]
      show lookupObj
          (objInsert (((fold (PDFTree.dictionary res) (⟨1, [], []⟩ : Document)).2.maxId + 1) + 1, 0) (Object.dictionary [("Type", Object.name "Catalog"), ("Pages", Object.reference (1, 0))])
            (objInsert ((fold (PDFTree.dictionary res) (⟨1, [], []⟩ : Document)).2.maxId + 1, 0) (.dictionary (dictSet "Parent" (.reference (1, 0)) (foldDict res (⟨1, [], []⟩ : Document)).1)) (⟨(fold (PDFTree.dictionary res) (⟨1, [], []⟩ : Document)).2.maxId + 1, objInsert (1, 0) (.dictionary [("Type", .name "Pages"),
           ("Kids", .array [.reference ((fold (PDFTree.dictionary res) (⟨1, [], []⟩ : Document)).2.maxId + 1, 0)]),
           ("Count", .integer 1),
           ("MediaBox", mediaBox)]) (objInsert ((fold (PDFTree.dictionary res) (⟨1, [], []⟩ : Document)).2.maxId + 1, 0) (fold (PDFTree.dictionary res) (⟨1, [], []⟩ : Document)).1 (fold (PDFTree.dictionary res) (⟨1, [], []⟩ : Document)).2.objects), (fold (PDFTree.dictionary res) (⟨1, [], []⟩ : Document)).2.trailer⟩ : Document).objects))
          ((fold (PDFTree.dictionary res) (⟨1, [], []⟩ : Document)).2.maxId + 1, 0) = _
      rw [lookupObj_objInsert_ne _ _ hcid_ne.symm]
      rw [lookupObj_objInsert_self]
    · rw [hpg]
      exact lhmGet_dictSet_self _ _ _
  · refine ⟨mediaBox, oldPageD, hroot, h2, ?_, ?_⟩
    · have hobj : out.newDoc.objects =
          objInsert ((setPageParent ((fold (PDFTree.dictionary res) (⟨1, [], []⟩ : Document)).2.maxId + 1, 0) (1, 0) (⟨(fold (PDFTree.dictionary res) (⟨1, [], []⟩ : Document)).2.maxId + 1, objInsert (1, 0) (.dictionary [("Type", .name "Pages"),
           ("Kids", .array [.reference ((fold (PDFTree.dictionary res) (⟨1, [], []⟩ : Document)).2.maxId + 1, 0)]),
           ("Count", .integer 1),
           ("MediaBox", mediaBox)]) (objInsert ((fold (PDFTree.dictionary res) (⟨1, [], []⟩ : Document)).2.maxId + 1, 0) (fold (PDFTree.dictionary res) (⟨1, [], []⟩ : Document)).1 (fold (PDFTree.dictionary res) (⟨1, [], []⟩ : Document)).2.objects), (fold (PDFTree.dictionary res) (⟨1, [], []⟩ : Document)).2.trailer⟩ : Document)).maxId + 1, 0)
            (Object.dictionary [("Type", Object.name "Catalog"), ("Pages", Object.reference (1, 0))])
            (setPageParent ((fold (PDFTree.dictionary res) (⟨1, [], []⟩ : Document)).2.maxId + 1, 0) (1, 0) (⟨(fold (PDFTree.dictionary res) (⟨1, [], []⟩ : Document)).2.maxId + 1, objInsert (1, 0) (.dictionary [("Type", .name "Pages"),
           ("Kids", .array [.reference ((fold (PDFTree.dictionary res) (⟨1, [], []⟩ : Document)).2.maxId + 1, 0)]),
           ("Count", .integer 1),
           ("MediaBox", mediaBox)]) (objInsert ((fold (PDFTree.dictionary res) (⟨1, [], []⟩ : Document)).2.maxId + 1, 0) (fold (PDFTree.dictionary res) (⟨1, [], []⟩ : Document)).1 (fold (PDFTree.dictionary res) (⟨1, [], []⟩ : Document)).2.objects), (fold (PDFTree.dictionary res) (⟨1, [], []⟩ : Document)).2.trailer⟩ : Document)).objects := by
        rw [← he]; rfl
      have hset : setPageParent ((fold (PDFTree.dictionary res) (⟨1, [], []⟩ : Document)).2.maxId + 1, 0) (1, 0) (⟨(fold (PDFTree.dictionary res) (⟨1, [], []⟩ : Document)).2.maxId + 1, objInsert (1, 0) (.dictionary [("Type", .name "Pages"),
           ("Kids", .array [.reference ((fold (PDFTree.dictionary res) (⟨1, [], []⟩ : Document)).2.maxId + 1, 0)]),
           ("Count", .integer 1),
           ("MediaBox", mediaBox)]) (objInsert ((fold (PDFTree.dictionary res) (⟨1, [], []⟩ : Document)).2.maxId + 1, 0) (fold (PDFTree.dictionary res) (⟨1, [], []⟩ : Document)).1 (fold (PDFTree.dictionary res) (⟨1, [], []⟩ : Document)).2.objects), (fold (PDFTree.dictionary res) (⟨1, [], []⟩ : Document)).2.trailer⟩ : Document) = ({ (⟨(fold (PDFTree.dictionary res) (⟨1, [], []⟩ : Document)).2.maxId + 1, objInsert (1, 0) (.dictionary [("Type", .name "Pages"),
           ("Kids", .array [.reference ((fold (PDFTree.dictionary res) (⟨1, [], []⟩ : Document)).2.maxId + 1, 0)]),
           ("Count", .integer 1),
           ("MediaBox", mediaBox)]) (objInsert ((fold (PDFTree.dictionary res) (⟨1, [], []⟩ : Document)).2.maxId + 1, 0) (fold (PDFTree.dictionary res) (⟨1, [], []⟩ : Document)).1 (fold (PDFTree.dictionary res) (⟨1, [], []⟩ : Document)).2.objects), (fold (PDFTree.dictionary res) (⟨1, [], []⟩ : Document)).2.trailer⟩ : Document) with objects := objInsert ((fold (PDFTree.dictionary res) (⟨1, [], []⟩ : Document)).2.maxId + 1, 0) (.dictionary (dictSet "Parent" (.reference (1, 0)) (foldDict res (⟨1, [], []⟩ : Document)).1)) (⟨(fold (PDFTree.dictionary res) (⟨1, [], []⟩ : Document)).2.maxId + 1, objInsert (1, 0) (.dictionary [("Type", .name "Pages"),
           ("Kids", .array [.reference ((fold (PDFTree.dictionary res) (⟨1, [], []⟩ : Document)).2.maxId + 1, 0)]),
           ("Count", .integer 1),
           ("MediaBox", mediaBox)]) (objInsert ((fold (PDFTree.dictionary res) (⟨1, [], []⟩ : Document)).2.maxId + 1, 0) (fold (PDFTree.dictionary res) (⟨1, [], []⟩ : Document)).1 (fold (PDFTree.dictionary res) (⟨1, [], []⟩ : Document)).2.objects), (fold (PDFTree.dictionary res) (⟨1, [], []⟩ : Document)).2.trailer⟩ : Document).objects } : Document) :=
        setPageParent_of_dict (⟨(fold (PDFTree.dictionary res) (⟨1, [], []⟩ : Document)).2.maxId + 1, objInsert (1, 0) (.dictionary [("Type", .name "Pages"),
           ("Kids", .array [.reference ((fold (PDFTree.dictionary res) (⟨1, [], []⟩ : Document)).2.maxId + 1, 0)]),
           ("Count", .integer 1),
           ("MediaBox", mediaBox)]) (objInsert ((fold (PDFTree.dictionary res) (⟨1, [], []⟩ : Document)).2.maxId + 1, 0) (fold (PDFTree.dictionary res) (⟨1, [], []⟩ : Document)).1 (fold (PDFTree.dictionary res) (⟨1, [], []⟩ : Document)).2.objects), (fold (PDFTree.dictionary res) (⟨1, [], []⟩ : Document)).2.trailer⟩ : Document) ((fold (PDFTree.dictionary res) (⟨1, [], []⟩ : Document)).2.maxId + 1, 0) (1, 0) l2
      rw [hset] at hobj
      have hcid_ne : (((fold (PDFTree.dictionary res) (⟨1, [], []⟩ : Document)).2.maxId + 1) + 1, (0 : Nat)) ≠ ((1 : Nat), (0 : Nat)) := by
        intro hc
        have h2c : ((fold (PDFTree.dictionary res) (⟨1, [], []⟩ : Document)).2.maxId + 1) + 1 = 1 := congrArg Prod.fst hc
        omega
      rw [hpg, hpi, hobj]
      show lookupObj
          (objInsert (((fold (PDFTree.dictionary res) (⟨1, [], []⟩ : Document)).2.maxId + 1) + 1, 0) (Object.dictionary [("Type", Object.name "Catalog"), ("Pages", Object.reference (1, 0))])
            (objInsert ((fold (PDFTree.dictionary res) (⟨1, [], []⟩ : Document)).2.maxId + 1, 0) (.dictionary (dictSet "Parent" (.reference (1, 0)) (foldDict res (⟨1, [], []⟩ : Document)).1)) (⟨(fold (PDFTree.dictionary res) (⟨1, [], []⟩ : Document)).2.maxId + 1, objInsert (1, 0) (.dictionary [("Type", .name "Pages"),
           ("Kids", .array [.reference ((fold (PDFTree.dictionary res) (⟨1, [], []⟩ : Document)).2.maxId + 1, 0)]),
           ("Count", .integer 1),
           ("MediaBox", mediaBox)]) (objInsert ((fold (PDFTree.dictionary res) (⟨1, [], []⟩ : Document)).2.maxId + 1, 0) (fold (PDFTree.dictionary res) (⟨1, [], []⟩ : Document)).1 (fold (PDFTree.dictionary res) (⟨1, [], []⟩ : Document)).2.objects), (fold (PDFTree.dictionary res) (⟨1, [], []⟩ : Document)).2.trailer⟩ : Document).objects))
          (1, 0) = _
      rw [lookupObj_objInsert_ne _ _ hcid_ne.symm]
      rw [lookupObj_objInsert_ne _ _ (fun hc => hpid_ne hc.symm)]
      show lookupObj
          (objInsert (1, 0)
            (.dictionary [("Type", .name "Pages"),
           ("Kids", .array [.reference ((fold (PDFTree.dictionary res) (⟨1, [], []⟩ : Document)).2.maxId + 1, 0)]),
           ("Count", .integer 1),
           ("MediaBox", mediaBox)])
            (objInsert ((fold (PDFTree.dictionary res) (⟨1, [], []⟩ : Document)).2.maxId + 1, 0) (fold (PDFTree.dictionary res) (⟨1, [], []⟩ : Document)).1 (fold (PDFTree.dictionary res) (⟨1, [], []⟩ : Document)).2.objects)) (1, 0) = _
      rw [lookupObj_objInsert_self]
    · intro v
      have hgd2 : getDictionary (srcSet doc oid (.dictionary (setParentValue v oldPageD)))
          oid = some (setParentValue v oldPageD) := by
        unfold getDictionary
        rw [getObject_srcSet_self doc oid _ (by rw [hroot]; rfl)]
      have hmb2 : lhmGet (setParentValue v oldPageD) "MediaBox" = some mediaBox := by
        rw [lhmGet_setParentValue_ne _ _ (by decide)]
        exact h2
      have hpn2 : pdftreeNew oid
          (srcSet doc oid (.dictionary (setParentValue v oldPageD))) =
          some (.dictionary res) := by
        rw [pdftreeNew_parent_value_irrelevant doc oid oldPageD v hroot]
        exact h3
      simp only [burstPage]
      rw [hgd2]
      simp only [Option.some_bind]
      rw [hmb2]
      simp only [Option.some_bind]
      rw [hpn2]
      simp only [Option.map_some']
      exact congrArg some he

/-- Witness for C7 on the one-page fixture (whose source page carries a stale
`Parent` reference to `(7, 0)`). -/
theorem c7_witness :
    burstPage onePageDoc "page" 1 1 (3, 0) = some ((burstPage onePageDoc "page" 1 1 (3, 0)).get (by decide)) ∧
      (((burstPage onePageDoc "page" 1 1 (3, 0)).get (by decide)).pagesId = (1, 0) ∧
        ((burstPage onePageDoc "page" 1 1 (3, 0)).get (by decide)).pageId ≠ ((burstPage onePageDoc "page" 1 1 (3, 0)).get (by decide)).pagesId ∧
        (∃ pd, lookupObj ((burstPage onePageDoc "page" 1 1 (3, 0)).get (by decide)).newDoc.objects ((burstPage onePageDoc "page" 1 1 (3, 0)).get (by decide)).pageId =
            some (.dictionary pd) ∧
          lhmGet pd "Parent" = some (.reference ((burstPage onePageDoc "page" 1 1 (3, 0)).get (by decide)).pagesId)) ∧
        (∃ mb pd0, getObject onePageDoc (3, 0) = some (.dictionary pd0) ∧
          lhmGet pd0 "MediaBox" = some mb ∧
          lookupObj ((burstPage onePageDoc "page" 1 1 (3, 0)).get (by decide)).newDoc.objects ((burstPage onePageDoc "page" 1 1 (3, 0)).get (by decide)).pagesId =
            some (.dictionary
              [("Type", .name "Pages"),
               ("Kids", .array [.reference ((burstPage onePageDoc "page" 1 1 (3, 0)).get (by decide)).pageId]),
               ("Count", .integer 1),
               ("MediaBox", mb)]) ∧
          ∀ v : Object,
            burstPage (srcSet onePageDoc (3, 0) (.dictionary (setParentValue v pd0)))
              "page" 1 1 (3, 0) = some ((burstPage onePageDoc "page" 1 1 (3, 0)).get (by decide)))) :=
  ⟨(Option.some_get (by decide)).symm,
    c7_parent_is_new_pages_node onePageDoc "page" 1 1 (3, 0) ((burstPage onePageDoc "page" 1 1 (3, 0)).get (by decide))
      (Option.some_get (by decide)).symm⟩

/-! ## Claim C2 -/

/-- C2 counterexample: in `twoPageDoc` the first page has no `MediaBox`, so
its extraction fails — yet the second page's file is still produced (the
per-page `Result` is discarded by `for_each(drop)`), and `burst` reports
success.  This contradicts "the first error aborts the remaining work and
nothing is written". -/
theorem c2_counterexample :
    burstPage twoPageDoc "doc" 1 1 (1, 0) = none ∧
      burstFiles twoPageDoc "doc" [(1, (1, 0)), (2, (2, 0))] = ["doc_2.pdf"] ∧
      burstFiles twoPageDoc "doc" [(1, (1, 0)), (2, (2, 0))] ≠ [] ∧
      burstReturn = Except.ok () := by
  refine ⟨rfl, rfl, by decide, rfl⟩

/-- C2 (amended): `burst` discards every per-page `Result`
(`for_each(drop)`): a page that fails to extract contributes no file but does
not abort the operation — the files of the pages before and after it are
written exactly as if it were absent (at the same suffix width), every later
successfully extracting page's file is still produced, and `burst` returns
`Ok(())` regardless. -/
theorem c2_burst_drops_page_errors (doc : SrcDoc) (stem : String)
    (pages pre post : List (Nat × ObjectId)) (no : Nat) (oid : ObjectId)
    (s e : Nat) (hp : pages = pre ++ (no, oid) :: post)
    (hr : pageRangeOf pages = some (s, e))
    (hf : burstPage doc stem (ceilLog10 (e + 1 - s)) no oid = none) :
    burstFiles doc stem pages =
      burstFilesW doc stem (ceilLog10 (e + 1 - s)) pre ++
        burstFilesW doc stem (ceilLog10 (e + 1 - s)) post ∧
      burstReturn = Except.ok () ∧
      (∀ q ∈ post, ∀ out : BurstPageOut,
        burstPage doc stem (ceilLog10 (e + 1 - s)) q.1 q.2 = some out →
        out.fileName ∈ burstFiles doc stem pages) := by
  have hbf : burstFiles doc stem pages =
      burstFilesW doc stem (ceilLog10 (e + 1 - s)) pages := by
    unfold burstFiles
    rw [hr]
  refine ⟨?_, rfl, ?_⟩
  · rw [hbf, hp]
    unfold burstFilesW
    rw [List.filterMap_append]
    simp only [List.filterMap_cons, hf]
    rfl
  · intro q hq out hout
    rw [hbf, hp]
    unfold burstFilesW
    rw [List.filterMap_append]
    refine List.mem_append_right _ ?_
    have hm : out.fileName ∈
        List.filterMap
          (fun p => Option.map (fun r => r.fileName)
            (burstPage doc stem (ceilLog10 (e + 1 - s)) p.1 p.2)) post :=
      List.mem_filterMap.mpr ⟨q, hq, by rw [hout]; rfl⟩
    rw [List.filterMap_cons, hf]
    exact hm

/-- Witness for C2's amended theorem on the two-page fixture. -/
theorem c2_witness :
    burstFiles twoPageDoc "doc" [(1, (1, 0)), (2, (2, 0))] =
      burstFilesW twoPageDoc "doc" (ceilLog10 (2 + 1 - 1)) [] ++
        burstFilesW twoPageDoc "doc" (ceilLog10 (2 + 1 - 1)) [(2, (2, 0))] ∧
      burstReturn = Except.ok () ∧
      (∀ q ∈ [((2 : Nat), ((2 : Nat), (0 : Nat)))], ∀ out : BurstPageOut,
        burstPage twoPageDoc "doc" (ceilLog10 (2 + 1 - 1)) q.1 q.2 = some out →
        out.fileName ∈ burstFiles twoPageDoc "doc" [(1, (1, 0)), (2, (2, 0))]) :=
  c2_burst_drops_page_errors twoPageDoc "doc" [(1, (1, 0)), (2, (2, 0))] []
    [(2, (2, 0))] 1 (1, 0) 1 2 rfl rfl rfl

/-! ## Claim C9 -/

theorem burstPage_fileName {doc : SrcDoc} {stem : String} {width no : Nat}
    {oid : ObjectId} {out : BurstPageOut}
    (h : burstPage doc stem width no oid = some out) :
    out.fileName = burstFileName stem width no := by
  simp only [burstPage] at h
  rcases Option.bind_eq_some.mp h with ⟨oldPageD, h1, h⟩
  rcases Option.bind_eq_some.mp h with ⟨mediaBox, h2, h⟩
  rcases Option.map_eq_some'.mp h with ⟨newPage, h3, he⟩
  rw [← he]

/-- C9 (amended): `burst` writes one file per page of the page index, named
`<stem>_<page number zero-padded to ceil(log10(max_pages))>.pdf`, where the
page numbers are the keys of the index — which `lopdf` numbers from 1, not 0;
every successfully extracted page's file (so named) is among the files
written.  In particular a 12-page `report.pdf` yields `report_01.pdf` …
`report_12.pdf`, not `report_00.pdf` … `report_11.pdf`. -/
theorem c9_burst_file_naming (doc : SrcDoc) (stem : String)
    (pages : List (Nat × ObjectId)) (s e : Nat)
    (hr : pageRangeOf pages = some (s, e)) (no : Nat) (oid : ObjectId)
    (hmem : (no, oid) ∈ pages) (out : BurstPageOut)
    (hsome : burstPage doc stem (ceilLog10 (e + 1 - s)) no oid = some out) :
    out.fileName = stem ++ "_" ++ zeroPad (ceilLog10 (e + 1 - s)) no ++ ".pdf" ∧
      out.fileName ∈ burstFiles doc stem pages := by
  constructor
  · rw [burstPage_fileName hsome]
    rfl
  · unfold burstFiles
    rw [hr]
    unfold burstFilesW
    exact List.mem_filterMap.mpr ⟨(no, oid), hmem, by rw [hsome]; rfl⟩

/-- Witness for C9's amended theorem: page 12 of the twelve-page fixture is
written as `report_12.pdf`. -/
theorem c9_witness :
    ((burstPage twelvePageDoc "report" (ceilLog10 (12 + 1 - 1)) 12 (12, 0)).get
        (by decide)).fileName =
      "report" ++ "_" ++ zeroPad (ceilLog10 (12 + 1 - 1)) 12 ++ ".pdf" ∧
      ((burstPage twelvePageDoc "report" (ceilLog10 (12 + 1 - 1)) 12 (12, 0)).get
          (by decide)).fileName ∈
        burstFiles twelvePageDoc "report" twelvePages :=
  c9_burst_file_naming twelvePageDoc "report" twelvePages 1 12 (by decide) 12 (12, 0)
    (by decide) _ (Option.some_get (by decide)).symm

/-- C9 counterexample: bursting the twelve-page `report.pdf` fixture yields
exactly `report_01.pdf` … `report_12.pdf` (page numbers are 1-based), not the
claimed `report_00.pdf` … `report_11.pdf`. -/
theorem c9_counterexample :
    burstFiles twelvePageDoc "report" twelvePages = ["report_01.pdf", "report_02.pdf", "report_03.pdf", "report_04.pdf", "report_05.pdf", "report_06.pdf", "report_07.pdf", "report_08.pdf", "report_09.pdf", "report_10.pdf", "report_11.pdf", "report_12.pdf"] ∧
      ["report_01.pdf", "report_02.pdf", "report_03.pdf", "report_04.pdf", "report_05.pdf", "report_06.pdf", "report_07.pdf", "report_08.pdf", "report_09.pdf", "report_10.pdf", "report_11.pdf", "report_12.pdf"] ≠ ["report_00.pdf", "report_01.pdf", "report_02.pdf", "report_03.pdf", "report_04.pdf", "report_05.pdf", "report_06.pdf", "report_07.pdf", "report_08.pdf", "report_09.pdf", "report_10.pdf", "report_11.pdf"] ∧
      "report_00.pdf" ∉ burstFiles twelvePageDoc "report" twelvePages ∧
      "report_12.pdf" ∈ burstFiles twelvePageDoc "report" twelvePages := by
  refine ⟨by decide, by decide, by decide, by decide⟩

/-! ## Claim C8: list and parser helpers -/

theorem takeWhile_eq_self_of {p : Char → Bool} :
    ∀ {l : List Char}, (∀ c ∈ l, p c) → l.takeWhile p = l := by
  intro l
  induction l with
  | nil => intro h; rfl
  | cons x xs ih =>
      intro h
      have hx : p x = true := h x (List.mem_cons_self _ _)
      have ihx := ih (fun c hc => h c (List.mem_cons_of_mem _ hc))
      simp [List.takeWhile_cons, hx, ihx]

theorem dropWhile_eq_nil_of {p : Char → Bool} :
    ∀ {l : List Char}, (∀ c ∈ l, p c) → l.dropWhile p = [] := by
  intro l
  induction l with
  | nil => intro h; rfl
  | cons x xs ih =>
      intro h
      have hx : p x = true := h x (List.mem_cons_self _ _)
      simp only [List.dropWhile_cons, hx]
      exact ih (fun c hc => h c (List.mem_cons_of_mem _ hc))

theorem takeWhile_append_of {p : Char → Bool} {x : Char} (r : List Char)
    (hx : p x = false) :
    ∀ {l : List Char}, (∀ c ∈ l, p c) → (l ++ x :: r).takeWhile p = l := by
  intro l
  induction l with
  | nil => intro h; simp [List.takeWhile_cons, hx]
  | cons y ys ih =>
      intro h
      have hy : p y = true := h y (List.mem_cons_self _ _)
      have ihy := ih (fun c hc => h c (List.mem_cons_of_mem _ hc))
      simp [List.cons_append, List.takeWhile_cons, hy, ihy]

theorem dropWhile_append_of {p : Char → Bool} {x : Char} (r : List Char)
    (hx : p x = false) :
    ∀ {l : List Char}, (∀ c ∈ l, p c) → (l ++ x :: r).dropWhile p = x :: r := by
  intro l
  induction l with
  | nil => intro h; simp [List.dropWhile_cons, hx]
  | cons y ys ih =>
      intro h
      have hy : p y = true := h y (List.mem_cons_self _ _)
      simp only [List.cons_append, List.dropWhile_cons, hy]
      exact ih (fun c hc => h c (List.mem_cons_of_mem _ hc))

theorem pNumber_all_digits {ds : List Char} (hne : ds ≠ [])
    (hdig : ∀ c ∈ ds, c.isDigit) (hval : digitsVal ds ≤ USIZE_MAX) :
    pNumber ds = .ok (digitsVal ds) [] true := by
  have hemp : ds.isEmpty = false := by
    cases ds with
    | nil => exact absurd rfl hne
    | cons x xs => rfl
  unfold pNumber
  rw [takeWhile_eq_self_of hdig, dropWhile_eq_nil_of hdig]
  simp [hemp, hval]

theorem pNumber_digits_dash {ds : List Char} (rest : List Char) (hne : ds ≠ [])
    (hdig : ∀ c ∈ ds, c.isDigit) (hval : digitsVal ds ≤ USIZE_MAX) :
    pNumber (ds ++ '-' :: rest) = .ok (digitsVal ds) ('-' :: rest) true := by
  have hdash : ('-').isDigit = false := by decide
  have hemp : ds.isEmpty = false := by
    cases ds with
    | nil => exact absurd rfl hne
    | cons x xs => rfl
  unfold pNumber
  rw [takeWhile_append_of rest hdash hdig, dropWhile_append_of rest hdash hdig]
  simp [hemp, hval]

theorem pNumber_dash_head (rest : List Char) :
    pNumber ('-' :: rest) = .err false := by
  have hdash : ('-').isDigit = false := by decide
  unfold pNumber
  simp [List.takeWhile_cons, hdash]

/-! ## Claim C8 -/

/-- C8 counterexample: the decimal token for `N = 2^64` (which exceeds
`usize::MAX` on 64-bit targets) is a string of digits, yet the range parser
rejects it — `usize::from_str` inside `number()` fails on overflow, and the
consumed failure makes `choice!` fail — so "for every natural number N the
token N parses as [N, N]" is false as stated. -/
theorem c8_counterexample :
    digitsVal ("18446744073709551616".toList) = 2 ^ 64 ∧
      (∀ c ∈ "18446744073709551616".toList, c.isDigit) ∧
      inclusiveRange ("18446744073709551616".toList) = .err true := by
  refine ⟨by decide, by decide, by decide⟩

/-- C8 (amended): the range-token parser satisfies the grammar for every
numeral that fits in `usize` (value at most `2^64 - 1` on the 64-bit targets
the program builds for): a bare digit string `N` parses as `[N, N]`, `N-M`
parses as `[N, M]`, `-M` parses as `[1, M]`, and the tokens `--` and `abc-`
are rejected. -/
theorem c8_range_token_grammar (ds ds1 ds2 : List Char)
    (hne : ds ≠ []) (hdig : ∀ c ∈ ds, c.isDigit)
    (hval : digitsVal ds ≤ USIZE_MAX)
    (hne1 : ds1 ≠ []) (hdig1 : ∀ c ∈ ds1, c.isDigit)
    (hval1 : digitsVal ds1 ≤ USIZE_MAX)
    (hne2 : ds2 ≠ []) (hdig2 : ∀ c ∈ ds2, c.isDigit)
    (hval2 : digitsVal ds2 ≤ USIZE_MAX) :
    inclusiveRange ds = .ok (digitsVal ds, digitsVal ds) [] true ∧
      inclusiveRange (ds1 ++ '-' :: ds2) =
        .ok (digitsVal ds1, digitsVal ds2) [] true ∧
      inclusiveRange ('-' :: ds) = .ok (1, digitsVal ds) [] true ∧
      inclusiveRange ("--".toList) = .err true ∧
      inclusiveRange ("abc-".toList) = .err false := by
  refine ⟨?_, ?_, ?_, by decide, by decide⟩
  · have hn := pNumber_all_digits hne hdig hval
    simp [inclusiveRange, pRangeBranch1, pOptDashNumber, pDashNumber, pChar, hn]
  · have hn1 := pNumber_digits_dash ds2 hne1 hdig1 hval1
    have hn2 := pNumber_all_digits hne2 hdig2 hval2
    simp [inclusiveRange, pRangeBranch1, pOptDashNumber, pDashNumber, pChar, hn1, hn2]
  · have hnd := pNumber_dash_head ds
    have hn := pNumber_all_digits hne hdig hval
    simp [inclusiveRange, pRangeBranch1, pRangeBranch2, pOptDashNumber, pDashNumber,
      pChar, hnd, hn]

/-- Witness for C8's amended theorem at the spec's example tokens `3`, `3-5`
and `-4`. -/
theorem c8_witness :
    inclusiveRange ['3'] = .ok (digitsVal ['3'], digitsVal ['3']) [] true ∧
      inclusiveRange (['3'] ++ '-' :: ['5']) =
        .ok (digitsVal ['3'], digitsVal ['5']) [] true ∧
      inclusiveRange ('-' :: ['3']) = .ok (1, digitsVal ['3']) [] true ∧
      inclusiveRange ("--".toList) = .err true ∧
      inclusiveRange ("abc-".toList) = .err false :=
  c8_range_token_grammar ['3'] ['3'] ['5'] (by decide) (by decide) (by decide)
    (by decide) (by decide) (by decide) (by decide) (by decide) (by decide)

end Padfoot
